import Mathlib

set_option maxRecDepth 10000
set_option maxHeartbeats 1000000

/-!
Verification of the licenseme CLI core (`licenseme_cli/cli.py`): a shallow
embedding of the license registry, the field-collection protocol and the
template renderer, together with theorems about them.

External collaborators (terminal I/O, git/environment identity lookups,
template file storage, argument parsing) are modelled as explicit
parameters: an `IdentityProvider` record for the identity sources, a
`String → Option String` store for template files, and a `List String`
stream for interactive answers (exhaustion of the stream models
end-of-input, which the program treats as an empty answer).
-/

namespace Licenseme

/-- A Python dict keyed by strings, modelled as an association list in
insertion order with unique keys: `dict.get(k)` (first binding wins,
matching unique-key dicts). -/
def dictGet {α : Type} (m : List (String × α)) (k : String) : Option α :=
  (m.find? (fun p => p.1 = k)).map (fun p => p.2)

/-- The `dict[k] = v`: update the existing binding in place (preserving
insertion order) or append a new one, exactly as a Python dict does. -/
def dictInsert {α : Type} (m : List (String × α)) (k : String) (v : α) :
    List (String × α) :=
  if m.any (fun p => p.1 = k) then
    m.map (fun p => if p.1 = k then (p.1, v) else p)
  else
    m ++ [(k, v)]

/-- A context is a Python dict from field key to value. -/
abbrev Context := List (String × String)

/-- The `context.get(k)`. -/
def ctxGet (ctx : Context) (k : String) : Option String :=
  dictGet ctx k

/-- The `context.get(k, d)`: lookup with a default. -/
def ctxGetD (ctx : Context) (k : String) (d : String) : String :=
  (ctxGet ctx k).getD d

/-- The `context[k] = v`. -/
def ctxInsert (ctx : Context) (k v : String) : Context :=
  dictInsert ctx k v

/-- Whether the character list `s` starts with the character list `pat`. -/
def listStartsWith : List Char → List Char → Bool
  | _, [] => true
  | [], _ :: _ => false
  | a :: as, b :: bs => (a == b) && listStartsWith as bs

/-- Python `str.strip()`: remove leading and trailing whitespace. -/
def pyStrip (s : String) : String :=
  String.mk (((s.toList.dropWhile Char.isWhitespace).reverse.dropWhile Char.isWhitespace).reverse)

/-- Python `str.endswith(suffix)`. -/
def pyEndsWith (s suffix : String) : Bool :=
  listStartsWith s.toList.reverse suffix.toList.reverse

/-- Worker for `pyReplace`; the fuel only bounds the recursion and is
always supplied large enough to never run out. -/
def replaceFuel : Nat → List Char → List Char → List Char → List Char
  | 0, s, _, _ => s
  | _ + 1, [], _, _ => []
  | fuel + 1, c :: rest, pat, rep =>
    if (!pat.isEmpty) && listStartsWith (c :: rest) pat then
      rep ++ replaceFuel fuel ((c :: rest).drop pat.length) pat rep
    else
      c :: replaceFuel fuel rest pat rep

/-- Python `str.replace(pat, rep)`: replace every (leftmost,
non-overlapping) occurrence. The program only ever replaces non-empty
tokens, so the empty-pattern edge case is treated as a no-op. -/
def pyReplace (s pat rep : String) : String :=
  String.mk (replaceFuel (s.length + 1) s.toList pat.toList rep.toList)

/-- Python `sep.join(xs)`. -/
def pyJoin (sep : String) : List String → String
  | [] => ""
  | [x] => x
  | x :: y :: xs => x ++ sep ++ pyJoin sep (y :: xs)

/-- Split a character list at the first `=`, if any; models Python
`"=" in s` / `s.split("=", 1)`. -/
def splitFirstEq : List Char → Option (List Char × List Char)
  | [] => none
  | c :: rest =>
    if c = '=' then some ([], rest)
    else (splitFirstEq rest).map (fun p => (c :: p.1, p.2))

/-- The `ensure_value`: `text.strip() if text else ""` on an optional string. -/
def ensure_value : Option String → String
  | none => ""
  | some s => pyStrip s

/-- The `normalize_license_key`: lowercase and keep only alphanumeric
characters. -/
def normalize_license_key (name : String) : String :=
  String.mk ((name.toList.map Char.toLower).filter Char.isAlphanum)

/-- Modelled from the spec: the external Identity Provider (environment
variables, git config, current year, working-directory name), which
"supplies best-effort default strings ... returns empty when unknown".
The source reads these through `subprocess`/`os.environ`/`datetime`/
`Path.cwd`, none of which are part of the pure core. -/
structure IdentityProvider where
  year : String
  full_name : String
  email : String
  cwd_name : String

/-- The `default_year`: the current year as a string. -/
def default_year (ip : IdentityProvider) : Context → Option String :=
  fun _ => some ip.year

/-- The `default_holder`: `guess_full_name() or None`. -/
def default_holder (ip : IdentityProvider) : Context → Option String :=
  fun _ => if ip.full_name = "" then none else some ip.full_name

/-- The `default_email`: `guess_email() or None`. -/
def default_email (ip : IdentityProvider) : Context → Option String :=
  fun _ => if ip.email = "" then none else some ip.email

/-- The `default_project_name`: `Path.cwd().name`. -/
def default_project_name (ip : IdentityProvider) : Context → Option String :=
  fun _ => some ip.cwd_name

/-- The `FieldSpec`: one field a license needs. -/
structure FieldSpec where
  key : String
  prompt : String
  default_factory : Option (Context → Option String)
  optional : Bool
  placeholder : Option String

/-- The `value` of a `ReplacementSpec` is either a callable of the context
or a plain string (`ValueProvider | str`). -/
inductive ReplValue where
  | ofFun : (Context → String) → ReplValue
  | ofStr : String → ReplValue

/-- The `ReplacementSpec`: literal tokens to find and the value to put there. -/
structure ReplacementSpec where
  tokens : List String
  value : ReplValue

/-- The `LicenseSpec`: immutable definition of one license. -/
structure LicenseSpec where
  key : String
  name : String
  filename : String
  aliases : List String
  fields : List FieldSpec
  replacements : List ReplacementSpec
  preamble_template : Option String
  post_process : Option (Context → Context)

/-- The `holder_with_email`: `"{holder} <{email}>"` when both are non-empty
after stripping, else the stripped holder. The Python defaults
`holder_key="copyright_holder"`, `email_key="email"` are passed explicitly
at call sites. -/
def holder_with_email (context : Context) (holder_key email_key : String) : String :=
  let holder := pyStrip (ctxGetD context holder_key "")
  let email := if email_key ≠ "" then pyStrip (ctxGetD context email_key "") else ""
  if holder ≠ "" ∧ email ≠ "" then holder ++ " <" ++ email ++ ">" else holder

/-- The `build_program_tagline`: join the non-empty stripped program pieces
with `" - "`, append `"<email>"` when an email is present, fall back to
`"This program"`. -/
def build_program_tagline (context : Context) : String :=
  let name := ensure_value (ctxGet context "program_name")
  let description := ensure_value (ctxGet context "program_description")
  let url := ensure_value (ctxGet context "program_url")
  let email := ensure_value (ctxGet context "email")
  let pieces := ([name, description, url].filter (fun segment => segment ≠ ""))
  let pieces := if email ≠ "" then pieces ++ ["<" ++ email ++ ">"] else pieces
  if pieces ≠ [] then pyJoin " - " pieces else "This program"

/-- The `ensure_sentence`: append a period unless the text is empty or already
ends with one. -/
def ensure_sentence (text : String) : String :=
  if text = "" then text
  else if pyEndsWith text "." then text else text ++ "."

/-- The `gpl2_notice_line`. -/
def gpl2_notice_line (context : Context) : String :=
  let line := ensure_sentence (build_program_tagline context)
  "     " ++ line ++ " Copyright (C) " ++ ctxGetD context "year" "" ++ " "
    ++ holder_with_email context "copyright_holder" "email"

/-- The `lgpl21_notice_block`. -/
def lgpl21_notice_block (context : Context) : String :=
  let tagline := ensure_sentence (build_program_tagline context)
  let header := "     " ++ tagline
  let body := "     Copyright (C) " ++ ctxGetD context "year" "" ++ " "
    ++ holder_with_email context "copyright_holder" "email"
  header ++ "\n" ++ body

/-- The `evaluate_value`: call a callable provider on the context; dereference
a string provider through the context if it is a key there, else use the
string itself. -/
def evaluate_value (provider : ReplValue) (context : Context) : String :=
  match provider with
  | .ofFun f => f context
  | .ofStr s =>
    match ctxGet context s with
    | some v => v
    | none => s

/-- The `apply_replacements`: for each rule in order, compute its value once
and replace every occurrence of each of its tokens. -/
def apply_replacements (text : String) (replacements : List ReplacementSpec)
    (context : Context) : String :=
  replacements.foldl
    (fun text repl =>
      let value := evaluate_value repl.value context
      repl.tokens.foldl (fun text token => pyReplace text token value) text)
    text

/-- Errors of Python `str.format_map`: a `KeyError` naming the missing
key, or a `ValueError` for a malformed format string. -/
inductive FormatError where
  | missingKey : String → FormatError
  | malformed : FormatError

/-- Scanner state for the `str.format_map` model: plain text, just after a
lone `\x7b`, just after a lone `\x7d`, or inside a field (reversed key
characters so far). -/
inductive FmtState where
  | text : FmtState
  | afterOpen : FmtState
  | afterClose : FmtState
  | field : List Char → FmtState

/-- Model of Python `str.format_map` restricted to the syntax the program
uses: literal text, doubled-brace escapes, and simple named fields
`\x7bkey\x7d` looked up in the context. -/
def formatMapGo (ctx : Context) : List Char → FmtState → Except FormatError String
  | [], .text => .ok ""
  | [], .afterOpen => .error .malformed
  | [], .afterClose => .error .malformed
  | [], .field _ => .error .malformed
  | c :: rest, .text =>
    if c = '\x7b' then formatMapGo ctx rest .afterOpen
    else if c = '\x7d' then formatMapGo ctx rest .afterClose
    else (formatMapGo ctx rest .text).map (fun t => String.mk [c] ++ t)
  | c :: rest, .afterOpen =>
    if c = '\x7b' then (formatMapGo ctx rest .text).map (fun t => "\x7b" ++ t)
    else if c = '\x7d' then
      match ctxGet ctx "" with
      | none => .error (.missingKey "")
      | some v => (formatMapGo ctx rest .text).map (fun t => v ++ t)
    else formatMapGo ctx rest (.field [c])
  | c :: rest, .afterClose =>
    if c = '\x7d' then (formatMapGo ctx rest .text).map (fun t => "\x7d" ++ t)
    else .error .malformed
  | c :: rest, .field acc =>
    if c = '\x7d' then
      match ctxGet ctx (String.mk acc.reverse) with
      | none => .error (.missingKey (String.mk acc.reverse))
      | some v => (formatMapGo ctx rest .text).map (fun t => v ++ t)
    else formatMapGo ctx rest (.field (c :: acc))

/-- The named fields a format template references, in scan order; `none`
when the template is malformed. Companion of `formatMapGo`. -/
def templateKeysGo : List Char → FmtState → Option (List String)
  | [], .text => some []
  | [], .afterOpen => none
  | [], .afterClose => none
  | [], .field _ => none
  | c :: rest, .text =>
    if c = '\x7b' then templateKeysGo rest .afterOpen
    else if c = '\x7d' then templateKeysGo rest .afterClose
    else templateKeysGo rest .text
  | c :: rest, .afterOpen =>
    if c = '\x7b' then templateKeysGo rest .text
    else if c = '\x7d' then (templateKeysGo rest .text).map (fun ks => "" :: ks)
    else templateKeysGo rest (.field [c])
  | c :: rest, .afterClose =>
    if c = '\x7d' then templateKeysGo rest .text
    else none
  | c :: rest, .field acc =>
    if c = '\x7d' then
      (templateKeysGo rest .text).map (fun ks => String.mk acc.reverse :: ks)
    else templateKeysGo rest (.field (c :: acc))

/-- The named fields referenced by a template, or `none` if malformed. -/
def templateKeys (template : String) : Option (List String) :=
  templateKeysGo template.toList .text

/-- The `append_preamble`: format the preamble template over the context
(re-raising a `KeyError` as the "Missing value ..." message), strip it,
and prepend it to the body separated by a blank line when non-empty. -/
def append_preamble (text template : String) (ctx : Context) : Except String String :=
  match formatMapGo ctx template.toList .text with
  | .error (.missingKey missing) =>
    .error ("Missing value '" ++ missing ++ "' required by this template")
  | .error .malformed => .error "Invalid format string"
  | .ok rendered =>
    let rendered := pyStrip rendered
    if rendered ≠ "" then .ok (rendered ++ "\n\n" ++ text) else .ok text

/-- The `_placeholder_for`: the declared placeholder when truthy, else
`<key with underscores replaced by spaces>`. -/
def placeholder_for (field : FieldSpec) : String :=
  match field.placeholder with
  | some p => if p ≠ "" then p else "<" ++ pyReplace field.key "_" " " ++ ">"
  | none => "<" ++ pyReplace field.key "_" " " ++ ">"

/-- The stripped computed default of a field:
`ensure_value(field.default_factory(values) if field.default_factory else "")`. -/
def field_default (field : FieldSpec) (values : Context) : String :=
  match field.default_factory with
  | some df => ensure_value (df values)
  | none => ""

/-- The interactive `while True` prompt loop for one field, reading from
an input stream. An exhausted stream models end-of-input (`EOFError`),
which the program turns into an empty answer; if the loop would then
re-prompt forever (empty required answer with no fallback) the result is
`none`, modelling non-termination. Returns the accepted answer, the rest
of the stream, and the number of iterations (prompt displays). -/
def promptLoop : List String → Bool → String → Option (String × List String × Nat)
  | [], optional, prompt_default =>
    let user_input := pyStrip ""
    let user_input := if user_input = "" ∧ prompt_default ≠ "" then prompt_default else user_input
    if user_input ≠ "" ∨ optional then some (user_input, [], 1) else none
  | x :: rest, optional, prompt_default =>
    let user_input := pyStrip x
    let user_input := if user_input = "" ∧ prompt_default ≠ "" then prompt_default else user_input
    if user_input ≠ "" ∨ optional then some (user_input, rest, 1)
    else (promptLoop rest optional prompt_default).map (fun r => (r.1, r.2.1, r.2.2 + 1))

/-- One iteration of the `for field in spec.fields` loop of
`collect_field_values`. The state is (values, remaining input stream,
prompts displayed so far); `none` models a non-terminating prompt loop. -/
def collectField (skip_prompts : Bool) (st : Context × List String × List String)
    (field : FieldSpec) : Option (Context × List String × List String) :=
  let values := st.1
  let inp := st.2.1
  let prompts := st.2.2
  let prefilled := ensure_value (some (ctxGetD values field.key ""))
  if prefilled ≠ "" then
    some (ctxInsert values field.key prefilled, inp, prompts)
  else
    let dflt := field_default field values
    let placeholder := placeholder_for field
    if skip_prompts then
      let candidate := if dflt ≠ "" then dflt else if field.optional then "" else placeholder
      some (ctxInsert values field.key candidate, inp, prompts)
    else
      let prompt := field.prompt
      let prompt_default := if dflt ≠ "" then dflt else if field.optional then "" else placeholder
      let prompt := if prompt_default ≠ "" then prompt ++ " [" ++ prompt_default ++ "]" else prompt
      let prompt := prompt ++ ": "
      match promptLoop inp field.optional prompt_default with
      | none => none
      | some r => some (ctxInsert values field.key r.1, r.2.1, prompts ++ List.replicate r.2.2 prompt)

/-- The field loop of `collect_field_values` over a list of fields. -/
def collectFields (skip_prompts : Bool) :
    List FieldSpec → Context × List String × List String →
    Option (Context × List String × List String)
  | [], st => some st
  | field :: rest, st =>
    match collectField skip_prompts st field with
    | none => none
    | some st2 => collectFields skip_prompts rest st2

/-- The override-installation phase of `collect_field_values`: store each
override whose value is non-empty after stripping. -/
def overrides_init (overrides : List (String × String)) : Context :=
  overrides.foldl
    (fun values kv =>
      let trimmed := ensure_value (some kv.2)
      if trimmed ≠ "" then ctxInsert values kv.1 trimmed else values)
    []

/-- The `collect_field_values`: install overrides, resolve every field in
declared order, then run `post_process`. Besides the context it returns
the unconsumed input stream and the prompts that were displayed. -/
def collect_field_values (spec : LicenseSpec) (skip_prompts : Bool)
    (overrides : List (String × String)) (inp : List String) :
    Option (Context × List String × List String) :=
  match collectFields skip_prompts spec.fields (overrides_init overrides, inp, []) with
  | none => none
  | some st =>
    some ((match spec.post_process with
           | some pp => pp st.1
           | none => st.1), st.2.1, st.2.2)

/-- The `load_license_text`, with template storage modelled as a partial map
from filename to contents. -/
def load_license_text (store : String → Option String) (spec : LicenseSpec) :
    Except String String :=
  match store spec.filename with
  | none => .error ("Template file not found: " ++ spec.filename)
  | some text => .ok text

/-- The final newline step of `render_license`:
`if not text.endswith("\n"): text += "\n"`. -/
def finalize_newline (text : String) : String :=
  if pyEndsWith text "\n" then text else text ++ "\n"

/-- The `render_license` before its final newline step: load the template,
apply the replacements when there are any, then the preamble when there is
one (Python truthiness: an empty replacement list or empty preamble
template is skipped). -/
def render_body (store : String → Option String) (spec : LicenseSpec)
    (context : Context) : Except String String :=
  match load_license_text store spec with
  | .error e => .error e
  | .ok text =>
    let text := if spec.replacements.isEmpty then text else apply_replacements text spec.replacements context
    match spec.preamble_template with
    | some template =>
      if template ≠ "" then append_preamble text template context else .ok text
    | none => .ok text

/-- The `render_license`. -/
def render_license (store : String → Option String) (spec : LicenseSpec)
    (context : Context) : Except String String :=
  (render_body store spec context).map finalize_newline

def PLACEHOLDER_YEAR : String := "<year>"
def PLACEHOLDER_HOLDER : String := "<copyright holder>"
def PLACEHOLDER_OWNER : String := "<owner>"
def PLACEHOLDER_EMAIL : String := "<email>"
def PLACEHOLDER_PROJECT : String := "<project name>"
def PLACEHOLDER_PROGRAM : String := "<program name>"
def PLACEHOLDER_DESCRIPTION : String := "<description>"
def PLACEHOLDER_URL : String := "<url>"

/-- The `year` field shared by most specs. -/
def fieldYear (ip : IdentityProvider) : FieldSpec :=
  ⟨"year", "Copyright year", some (default_year ip), false, some PLACEHOLDER_YEAR⟩

/-- The `copyright_holder` field shared by most specs. -/
def fieldHolder (ip : IdentityProvider) (prompt : String) : FieldSpec :=
  ⟨"copyright_holder", prompt, some (default_holder ip), false, some PLACEHOLDER_HOLDER⟩

/-- The optional `email` field shared by several specs. -/
def fieldEmail (ip : IdentityProvider) : FieldSpec :=
  ⟨"email", "Contact email (optional)", some (default_email ip), true, some PLACEHOLDER_EMAIL⟩

/-- The `program_name` field of the GPL-family specs. -/
def fieldProgramName (ip : IdentityProvider) (prompt : String) : FieldSpec :=
  ⟨"program_name", prompt, some (default_project_name ip), false, some PLACEHOLDER_PROGRAM⟩

/-- The optional `program_description` field of the GPL-family specs. -/
def fieldProgramDescription : FieldSpec :=
  ⟨"program_description", "Program description", none, true, some PLACEHOLDER_DESCRIPTION⟩

/-- The optional `program_url` field of the GPL-family specs. -/
def fieldProgramUrl : FieldSpec :=
  ⟨"program_url", "Project URL (optional)", none, true, some PLACEHOLDER_URL⟩

/-- The `project_name` field of the preamble-style specs. -/
def fieldProjectName (ip : IdentityProvider) : FieldSpec :=
  ⟨"project_name", "Project name", some (default_project_name ip), false, some PLACEHOLDER_PROJECT⟩

def spec_MIT (ip : IdentityProvider) : LicenseSpec :=
  { key := "MIT", name := "MIT License", filename := "MIT.txt"
    aliases := ["mit", "mitlicense"]
    fields := [fieldYear ip, fieldHolder ip "Copyright holder", fieldEmail ip]
    replacements :=
      [⟨["<year>"], .ofStr "year"⟩,
       ⟨["<copyright holders>"], .ofFun (fun ctx => holder_with_email ctx "copyright_holder" "email")⟩]
    preamble_template := none, post_process := none }

def spec_AGPL_3_0_only (ip : IdentityProvider) : LicenseSpec :=
  { key := "AGPL-3.0-only", name := "GNU AGPL v3 (only)", filename := "AGPL-3.0-only.txt"
    aliases := ["agpl-3.0-only", "agpl3-only"]
    fields := [fieldYear ip, fieldHolder ip "Copyright holder", fieldEmail ip,
               fieldProgramName ip "Program name", fieldProgramDescription, fieldProgramUrl]
    replacements :=
      [⟨["<year>"], .ofStr "year"⟩,
       ⟨["<name of author>"], .ofFun (fun ctx => holder_with_email ctx "copyright_holder" "email")⟩,
       ⟨["<one line to give the program's name and a brief idea of what it does.>"],
        .ofFun (fun ctx => build_program_tagline ctx)⟩]
    preamble_template := none, post_process := none }

def spec_LGPL_2_1_or_later (ip : IdentityProvider) : LicenseSpec :=
  { key := "LGPL-2.1-or-later", name := "GNU LGPL v2.1 (or later)", filename := "LGPL-2.1-or-later.txt"
    aliases := ["lgpl-2.1", "lgpl2.1", "lgpl-2.1+", "lgpl21-or-later"]
    fields := [fieldYear ip, fieldHolder ip "Copyright holder", fieldEmail ip,
               fieldProgramName ip "Library or program name", fieldProgramDescription, fieldProgramUrl]
    replacements :=
      [⟨["     one line to give the library's name and an idea of what it does.\n     Copyright (C) year  name of author"],
        .ofFun lgpl21_notice_block⟩]
    preamble_template := none, post_process := none }

def spec_LGPL_2_1_only (ip : IdentityProvider) : LicenseSpec :=
  { key := "LGPL-2.1-only", name := "GNU LGPL v2.1 (only)", filename := "LGPL-2.1-only.txt"
    aliases := ["lgpl-2.1-only", "lgpl21"]
    fields := [fieldYear ip, fieldHolder ip "Copyright holder", fieldEmail ip,
               fieldProgramName ip "Library or program name", fieldProgramDescription, fieldProgramUrl]
    replacements :=
      [⟨["     one line to give the library's name and an idea of what it does.\n     Copyright (C) year  name of author"],
        .ofFun lgpl21_notice_block⟩]
    preamble_template := none, post_process := none }

def spec_GPL_2_0_only (ip : IdentityProvider) : LicenseSpec :=
  { key := "GPL-2.0-only", name := "GNU GPL v2 (only)", filename := "GPL-2.0-only.txt"
    aliases := ["gpl-2.0-only", "gpl2-only"]
    fields := [fieldYear ip, fieldHolder ip "Copyright holder", fieldEmail ip,
               fieldProgramName ip "Program name", fieldProgramDescription, fieldProgramUrl]
    replacements :=
      [⟨["     one line to give the program's name and an idea of what it does. Copyright (C) yyyy name of author"],
        .ofFun gpl2_notice_line⟩]
    preamble_template := none, post_process := none }

def spec_GPL_3_0_only (ip : IdentityProvider) : LicenseSpec :=
  { key := "GPL-3.0-only", name := "GNU GPL v3 (only)", filename := "GPL-3.0-only.txt"
    aliases := ["gpl-3.0-only", "gpl3-only"]
    fields := [fieldYear ip, fieldHolder ip "Copyright holder", fieldEmail ip,
               fieldProgramName ip "Program name", fieldProgramDescription, fieldProgramUrl]
    replacements :=
      [⟨["<year>"], .ofStr "year"⟩,
       ⟨["<name of author>"], .ofFun (fun ctx => holder_with_email ctx "copyright_holder" "email")⟩,
       ⟨["<program>"], .ofStr "program_name"⟩,
       ⟨["<one line to give the program's name and a brief idea of what it does.>"],
        .ofFun (fun ctx => build_program_tagline ctx)⟩]
    preamble_template := none, post_process := none }

def spec_CC0_1_0 (ip : IdentityProvider) : LicenseSpec :=
  { key := "CC0-1.0", name := "Creative Commons CC0 1.0 Universal", filename := "CC0-1.0.txt"
    aliases := ["cc0", "cc0-1.0", "creative-commons-zero"]
    fields := [fieldProjectName ip, fieldYear ip, fieldHolder ip "Author or holder"]
    replacements := []
    preamble_template := some "{project_name}\nCopyright (c) {year} {copyright_holder}"
    post_process := none }

def spec_BSL_1_0 (ip : IdentityProvider) : LicenseSpec :=
  { key := "BSL-1.0", name := "Boost Software License 1.0", filename := "BSL-1.0.txt"
    aliases := ["bsl", "boost", "boost-1.0"]
    fields := [fieldYear ip, fieldHolder ip "Copyright holder"]
    replacements := []
    preamble_template := some "Copyright (c) {year} {copyright_holder}"
    post_process := none }

def spec_ISC (ip : IdentityProvider) : LicenseSpec :=
  { key := "ISC", name := "ISC License", filename := "ISC.txt"
    aliases := ["isc"]
    fields := [fieldYear ip, fieldHolder ip "Copyright holder"]
    replacements := []
    preamble_template := some "Copyright (c) {year} {copyright_holder}"
    post_process := none }

def spec_Apache_2_0 (ip : IdentityProvider) : LicenseSpec :=
  { key := "Apache-2.0", name := "Apache License 2.0", filename := "Apache-2.0.txt"
    aliases := ["apache", "apache2", "apache-2", "apache20"]
    fields := [fieldYear ip, fieldHolder ip "Copyright holder", fieldEmail ip]
    replacements :=
      [⟨["[yyyy]"], .ofStr "year"⟩,
       ⟨["[name of copyright owner]"], .ofFun (fun ctx => holder_with_email ctx "copyright_holder" "email")⟩]
    preamble_template := none, post_process := none }

def spec_BSD_3_Clause (ip : IdentityProvider) : LicenseSpec :=
  { key := "BSD-3-Clause", name := "BSD 3-Clause License", filename := "BSD-3-Clause.txt"
    aliases := ["bsd3", "bsd-3", "bsd-3-clause"]
    fields := [fieldYear ip,
               ⟨"owner", "Copyright holder", some (default_holder ip), false, some PLACEHOLDER_OWNER⟩]
    replacements :=
      [⟨["<year>"], .ofStr "year"⟩,
       ⟨["<owner>"], .ofFun (fun ctx => holder_with_email ctx "owner" "email")⟩]
    preamble_template := none, post_process := none }

def spec_BSD_2_Clause (ip : IdentityProvider) : LicenseSpec :=
  { key := "BSD-2-Clause", name := "BSD 2-Clause License", filename := "BSD-2-Clause.txt"
    aliases := ["bsd2", "bsd-2", "simplifiedbsd"]
    fields := [fieldYear ip,
               ⟨"owner", "Copyright holder", some (default_holder ip), false, some PLACEHOLDER_OWNER⟩]
    replacements :=
      [⟨["<year>"], .ofStr "year"⟩,
       ⟨["<owner>"], .ofFun (fun ctx => holder_with_email ctx "owner" "email")⟩]
    preamble_template := none, post_process := none }

def spec_GPL_3_0_or_later (ip : IdentityProvider) : LicenseSpec :=
  { key := "GPL-3.0-or-later", name := "GNU GPL v3 (or later)", filename := "GPL-3.0-or-later.txt"
    aliases := ["gpl3", "gpl-3", "gplv3", "gpl-3.0"]
    fields := [fieldYear ip, fieldHolder ip "Copyright holder", fieldEmail ip,
               fieldProgramName ip "Program name", fieldProgramDescription, fieldProgramUrl]
    replacements :=
      [⟨["<year>"], .ofStr "year"⟩,
       ⟨["<name of author>"], .ofFun (fun ctx => holder_with_email ctx "copyright_holder" "email")⟩,
       ⟨["<program>"], .ofStr "program_name"⟩,
       ⟨["<one line to give the program's name and a brief idea of what it does.>"],
        .ofFun (fun ctx => build_program_tagline ctx)⟩]
    preamble_template := none, post_process := none }

def spec_GPL_2_0_or_later (ip : IdentityProvider) : LicenseSpec :=
  { key := "GPL-2.0-or-later", name := "GNU GPL v2 (or later)", filename := "GPL-2.0-or-later.txt"
    aliases := ["gpl2", "gpl-2", "gplv2", "gpl-2.0"]
    fields := [fieldYear ip, fieldHolder ip "Copyright holder", fieldEmail ip,
               fieldProgramName ip "Program name", fieldProgramDescription, fieldProgramUrl]
    replacements :=
      [⟨["     one line to give the program's name and an idea of what it does. Copyright (C) yyyy name of author"],
        .ofFun gpl2_notice_line⟩]
    preamble_template := none, post_process := none }

def spec_LGPL_3_0_or_later (ip : IdentityProvider) : LicenseSpec :=
  { key := "LGPL-3.0-or-later", name := "GNU LGPL v3 (or later)", filename := "LGPL-3.0-or-later.txt"
    aliases := ["lgpl3", "lgpl-3", "lgplv3"]
    fields := [fieldYear ip, fieldHolder ip "Copyright holder", fieldEmail ip,
               fieldProgramName ip "Program or library name", fieldProgramDescription, fieldProgramUrl]
    replacements :=
      [⟨["<year>"], .ofStr "year"⟩,
       ⟨["<name of author>"], .ofFun (fun ctx => holder_with_email ctx "copyright_holder" "email")⟩,
       ⟨["<program>"], .ofStr "program_name"⟩,
       ⟨["<one line to give the program's name and a brief idea of what it does.>"],
        .ofFun (fun ctx => build_program_tagline ctx)⟩]
    preamble_template := none, post_process := none }

def spec_AGPL_3_0_or_later (ip : IdentityProvider) : LicenseSpec :=
  { key := "AGPL-3.0-or-later", name := "GNU AGPL v3 (or later)", filename := "AGPL-3.0-or-later.txt"
    aliases := ["agpl3", "agpl-3", "agplv3"]
    fields := [fieldYear ip, fieldHolder ip "Copyright holder", fieldEmail ip,
               fieldProgramName ip "Program name", fieldProgramDescription, fieldProgramUrl]
    replacements :=
      [⟨["<year>"], .ofStr "year"⟩,
       ⟨["<name of author>"], .ofFun (fun ctx => holder_with_email ctx "copyright_holder" "email")⟩,
       ⟨["<one line to give the program's name and a brief idea of what it does.>"],
        .ofFun (fun ctx => build_program_tagline ctx)⟩]
    preamble_template := none, post_process := none }

def spec_MPL_2_0 (ip : IdentityProvider) : LicenseSpec :=
  { key := "MPL-2.0", name := "Mozilla Public License 2.0", filename := "MPL-2.0.txt"
    aliases := ["mpl", "mpl2"]
    fields := [fieldProjectName ip, fieldYear ip, fieldHolder ip "Copyright holder"]
    replacements := []
    preamble_template := some "{project_name}\nCopyright (c) {year} {copyright_holder}"
    post_process := none }

def spec_EPL_2_0 (ip : IdentityProvider) : LicenseSpec :=
  { key := "EPL-2.0", name := "Eclipse Public License 2.0", filename := "EPL-2.0.txt"
    aliases := ["epl", "epl2"]
    fields := [fieldProjectName ip, fieldYear ip, fieldHolder ip "Copyright holder"]
    replacements := []
    preamble_template := some "{project_name}\nCopyright (c) {year} {copyright_holder}"
    post_process := none }

def spec_Unlicense (ip : IdentityProvider) : LicenseSpec :=
  { key := "Unlicense", name := "The Unlicense", filename := "Unlicense.txt"
    aliases := ["unlicense", "public-domain"]
    fields := [fieldProjectName ip, fieldYear ip, fieldHolder ip "Author or holder"]
    replacements := []
    preamble_template := some "{project_name}\nCopyright (c) {year} {copyright_holder}"
    post_process := none }

def spec_WTFPL (ip : IdentityProvider) : LicenseSpec :=
  { key := "WTFPL", name := "Do What The F*ck You Want To Public License", filename := "WTFPL.txt"
    aliases := ["wtfpl"]
    fields := [fieldProjectName ip, fieldYear ip, fieldHolder ip "Author"]
    replacements := []
    preamble_template := some "{project_name}\nCopyright (c) {year} {copyright_holder}"
    post_process := none }

/-- The `LICENSE_SPECS` in registration (declaration) order. -/
def LICENSE_SPECS (ip : IdentityProvider) : List LicenseSpec :=
  [spec_MIT ip, spec_AGPL_3_0_only ip, spec_LGPL_2_1_or_later ip, spec_LGPL_2_1_only ip,
   spec_GPL_2_0_only ip, spec_GPL_3_0_only ip, spec_CC0_1_0 ip, spec_BSL_1_0 ip,
   spec_ISC ip, spec_Apache_2_0 ip, spec_BSD_3_Clause ip, spec_BSD_2_Clause ip,
   spec_GPL_3_0_or_later ip, spec_GPL_2_0_or_later ip, spec_LGPL_3_0_or_later ip,
   spec_AGPL_3_0_or_later ip, spec_MPL_2_0 ip, spec_EPL_2_0 ip, spec_Unlicense ip,
   spec_WTFPL ip]

/-- Dict insertion (`m[k] = v`) for the registry map. -/
def mapInsert (m : List (String × LicenseSpec)) (k : String) (v : LicenseSpec) :
    List (String × LicenseSpec) :=
  dictInsert m k v

/-- The `LICENSE_MAP`: first the dict comprehension over normalized keys, then
the loop registering every alias (later registrations overwrite). -/
def LICENSE_MAP (ip : IdentityProvider) : List (String × LicenseSpec) :=
  let m := (LICENSE_SPECS ip).foldl
    (fun m spec => mapInsert m (normalize_license_key spec.key) spec) []
  (LICENSE_SPECS ip).foldl
    (fun m spec =>
      spec.aliases.foldl (fun m al => mapInsert m (normalize_license_key al) spec) m)
    m

/-- The `resolve_spec`: normalize and look up, failing with the
"Unsupported license" message. -/
def resolve_spec (ip : IdentityProvider) (name : String) : Except String LicenseSpec :=
  match (LICENSE_MAP ip).find? (fun p => p.1 = normalize_license_key name) with
  | some p => .ok p.2
  | none => .error ("Unsupported license '" ++ name ++ "'. Use --list to see supported identifiers.")

/-- The key and aliases under which a spec is registered. -/
def identifiersOf (spec : LicenseSpec) : List String :=
  spec.key :: spec.aliases

/-- The parsed command line (`argparse` itself is external; this is the
namespace it produces). -/
structure Args where
  license : Option String
  list : Bool
  defaults : Bool
  year : Option String
  holder : Option String
  owner : Option String
  email : Option String
  program_name : Option String
  program_description : Option String
  program_url : Option String
  project_name : Option String
  set : List String

/-- The `push` helper of `build_cli_overrides`: store a stripped non-empty
value under each of the given keys. -/
def pushOverride (overrides : Context) (value : Option String) (keys : List String) : Context :=
  match value with
  | none => overrides
  | some v =>
    let trimmed := pyStrip v
    if trimmed = "" then overrides
    else keys.foldl (fun o key => ctxInsert o key trimmed) overrides

/-- The `--set KEY=VALUE` loop of `build_cli_overrides`: split on the
first `=`, reject a missing separator or an empty stripped key. -/
def applySet : Context → List String → Except String Context
  | overrides, [] => .ok overrides
  | overrides, assignment :: rest =>
    match splitFirstEq assignment.toList with
    | none => .error ("Invalid --set value '" ++ assignment ++ "'. Expected KEY=VALUE.")
    | some kv =>
      let key := pyStrip (String.mk kv.1)
      if key = "" then .error "Override key cannot be empty."
      else applySet (ctxInsert overrides key (pyStrip (String.mk kv.2))) rest

/-- The `build_cli_overrides`. -/
def build_cli_overrides (args : Args) : Except String Context :=
  let o := pushOverride [] args.year ["year"]
  let o := pushOverride o args.holder ["copyright_holder", "owner"]
  let o := pushOverride o args.owner ["owner"]
  let o := pushOverride o args.email ["email"]
  let o := pushOverride o args.program_name ["program_name"]
  let o := pushOverride o args.program_description ["program_description"]
  let o := pushOverride o args.program_url ["program_url"]
  let o := pushOverride o args.project_name ["project_name"]
  applySet o args.set

/-- The control flow of `main`, with the externals as parameters. The
result is `none` when field collection diverges; otherwise the exit code
together with the rendered text written to standard output (`none` when
nothing was rendered — the `--list` output and the `-o` file path are
outside this model). -/
def mainModel (args : Args) (ip : IdentityProvider) (stdin_isatty : Bool)
    (inp : List String) (store : String → Option String) :
    Option (Nat × Option String) :=
  if args.list then some (0, none)
  else
    match args.license with
    | none => some (1, none)
    | some name =>
      match resolve_spec ip name with
      | .error _ => some (1, none)
      | .ok spec =>
        let skip_prompts := args.defaults || !stdin_isatty
        match build_cli_overrides args with
        | .error _ => some (1, none)
        | .ok overrides =>
          match collect_field_values spec skip_prompts overrides inp with
          | none => none
          | some r =>
            match render_license store spec r.1 with
            | .error _ => some (1, none)
            | .ok text => some (0, some text)

/-- A sample identity provider with no name or email known. -/
def ipAnon : IdentityProvider := ⟨"2025", "", "", "project"⟩

/-- A sample identity provider with a known name. -/
def ipAnn : IdentityProvider := ⟨"2025", "Ann", "", "project"⟩

/-- The error `build_cli_overrides` raises for one `--set` argument, if
any: the missing-separator message or the empty-key message. -/
def setErrorFor (assignment : String) : Option String :=
  match splitFirstEq assignment.toList with
  | none => some ("Invalid --set value '" ++ assignment ++ "'. Expected KEY=VALUE.")
  | some kv =>
    if pyStrip (String.mk kv.1) = "" then some "Override key cannot be empty." else none

/-- The spec with the field at index `i` replaced. -/
def withFieldAt (spec : LicenseSpec) (i : Nat) (g : FieldSpec) : LicenseSpec :=
  { spec with fields := spec.fields.set i g }

/-- Two contexts agree on every key other than `k`. -/
def agreesExcept (k : String) (c1 c2 : Context) : Prop :=
  ∀ j, j ≠ k → ctxGet c1 j = ctxGet c2 j

/-- A template store whose MIT template body ends with two newlines
(template contents are opaque external data to the program). -/
def c1Store : String → Option String :=
  fun f => if f = "MIT.txt" then some "<year> <copyright holders>\n\n" else none

/-- A spec declaring both a replacement rule and a preamble template (the
data model permits this even though no registered spec uses both). -/
def specBoth : LicenseSpec :=
  { key := "BOTH", name := "Both mechanisms", filename := "BOTH.txt", aliases := []
    fields := [], replacements := [⟨["TOKEN"], .ofStr "value_key"⟩]
    preamble_template := some "{p}", post_process := none }

/-- Template store for `specBoth`. -/
def storeBoth : String → Option String :=
  fun f => if f = "BOTH.txt" then some "TOKEN body" else none

/-- A store for the Boost license used as a concrete rendering input. -/
def storeBSL : String → Option String :=
  fun f => if f = "BSL-1.0.txt" then some "BODY" else none

/-- Specification of a `formatMapGo` outcome against the referenced key
list: success means every referenced key is present; a `KeyError` names a
referenced key that is absent and is preceded (in scan order) only by
present keys; a `ValueError` cannot happen on a well-formed template. -/
def FmtOk (ctx : Context) (ks : List String) : Except FormatError String → Prop
  | .ok _ => ∀ k ∈ ks, (ctxGet ctx k).isSome
  | .error (.missingKey k) =>
    ∃ pre post, ks = pre ++ k :: post ∧ (∀ j ∈ pre, (ctxGet ctx j).isSome) ∧ ctxGet ctx k = none
  | .error .malformed => False

/-- A parsed command line carrying a malformed `--set` argument. -/
def argsBadSet : Args :=
  { license := some "mit", list := false, defaults := true, year := none, holder := none,
    owner := none, email := none, program_name := none, program_description := none,
    program_url := none, project_name := none, set := ["novalue"] }

/-! ### Helper lemmas -/

theorem toList_append (s t : String) : (s ++ t).toList = s.toList ++ t.toList := rfl

theorem pyJoin_append_one (sep y : String) :
    ∀ xs : List String, pyJoin sep (xs ++ [y]) = if xs = [] then y else pyJoin sep xs ++ sep ++ y
  | [] => by simp [pyJoin]
  | [x] => by simp [pyJoin]
  | x :: x2 :: xs => by
    have ih := pyJoin_append_one sep y (x2 :: xs)
    simp only [List.cons_append] at ih ⊢
    simp [pyJoin, ih, String.append_assoc]

theorem pyEndsWith_append_nl (s : String) : pyEndsWith (s ++ "\n") "\n" = true := by
  simp [pyEndsWith, toList_append, listStartsWith]

theorem listStartsWith_length : ∀ s pat : List Char, listStartsWith s pat = true → pat.length ≤ s.length
  | _, [] => by simp
  | [], _ :: _ => by simp [listStartsWith]
  | a :: as, b :: bs => by
    simp only [listStartsWith, Bool.and_eq_true, List.length_cons]
    intro h
    exact Nat.succ_le_succ (listStartsWith_length as bs h.2)

theorem pyEndsWith_ne_empty {s t : String} (h : pyEndsWith s t = true) (ht : t ≠ "") : s ≠ "" := by
  intro hs
  subst hs
  have hlen := listStartsWith_length _ _ h
  simp at hlen
  apply ht
  cases t with
  | mk data =>
    have : data = [] := List.eq_nil_of_length_eq_zero (Nat.le_zero.mp (by simpa using hlen))
    simp [this]

theorem pyEndsWith_append_nl_two (s : String) :
    pyEndsWith (s ++ "\n") "\n\n" = pyEndsWith s "\n" := by
  simp [pyEndsWith, toList_append, listStartsWith]

theorem headclean_cons {α : Type} {p : α → Bool} {b : α} {t : List α}
    (h : (b :: t).dropWhile p = b :: t) : p b = false := by
  by_cases hb : p b = true
  · rw [List.dropWhile_cons, if_pos hb] at h
    have hlen : (t.dropWhile p).length ≤ t.length := (List.dropWhile_sublist p).length_le
    rw [h] at hlen
    simp at hlen
  · simpa using hb

theorem dropWhile_headclean {α : Type} (p : α → Bool) (l : List α) :
    (l.dropWhile p).dropWhile p = l.dropWhile p := by
  cases hd : l.dropWhile p with
  | nil => rfl
  | cons a t =>
    have h1 := List.head?_dropWhile_not p l
    rw [hd] at h1
    simp only [List.head?_cons] at h1
    rw [List.dropWhile_cons]
    simp [h1]

theorem headclean_of_prefix {α : Type} (p : α → Bool) {B A : List α}
    (hpre : B <+: A) (hA : A.dropWhile p = A) : B.dropWhile p = B := by
  cases hB : B with
  | nil => rfl
  | cons b t =>
    obtain ⟨rest, hrest⟩ := hpre
    rw [hB, List.cons_append] at hrest
    rw [← hrest] at hA
    have hb := headclean_cons hA
    rw [List.dropWhile_cons]
    simp [hb]

theorem pyStrip_idem (s : String) : pyStrip (pyStrip s) = pyStrip s := by
  unfold pyStrip
  have htl : ∀ L : List Char, (String.mk L).toList = L := fun L => rfl
  rw [htl]
  generalize s.toList = l
  set A := l.dropWhile Char.isWhitespace with hA
  set B := (A.reverse.dropWhile Char.isWhitespace).reverse with hB
  have hpre : B <+: A := by
    have hsuf : A.reverse.dropWhile Char.isWhitespace <:+ A.reverse := List.dropWhile_suffix _
    have h2 : (A.reverse.dropWhile Char.isWhitespace).reverse <+: A.reverse.reverse :=
      List.reverse_prefix.mpr hsuf
    rw [List.reverse_reverse] at h2
    exact h2
  have hAclean : A.dropWhile Char.isWhitespace = A := by
    rw [hA]
    exact dropWhile_headclean _ _
  have hBclean : B.dropWhile Char.isWhitespace = B := headclean_of_prefix _ hpre hAclean
  have hBrev : B.reverse.dropWhile Char.isWhitespace = B.reverse := by
    rw [hB, List.reverse_reverse]
    exact dropWhile_headclean _ _
  rw [hBclean, hBrev, List.reverse_reverse]

theorem dictGet_map_replace {α : Type} (k : String) (v : α) :
    ∀ m : List (String × α), m.any (fun p => p.1 = k) = true →
      dictGet (m.map (fun p => if p.1 = k then (p.1, v) else p)) k = some v := by
  intro m
  induction m with
  | nil => simp
  | cons a t ih =>
    intro h
    unfold dictGet
    simp only [List.map_cons]
    by_cases ha : a.1 = k
    · rw [if_pos ha, List.find?_cons_of_pos _ (by simpa using ha)]
      rfl
    · have h' : t.any (fun p => p.1 = k) = true := by
        rcases (by simpa [List.any_cons] using h : a.1 = k ∨ t.any (fun p => p.1 = k) = true) with
          hc | hc
        · exact absurd hc ha
        · exact hc
      rw [if_neg ha, List.find?_cons_of_neg _ (by simpa using ha)]
      exact ih h'

theorem dictGet_append_single {α : Type} (k : String) (v : α) :
    ∀ m : List (String × α), m.any (fun p => p.1 = k) = false →
      dictGet (m ++ [(k, v)]) k = some v := by
  intro m
  induction m with
  | nil => simp [dictGet]
  | cons a t ih =>
    intro h
    simp only [List.any_cons, Bool.or_eq_false_iff] at h
    have ha : ¬a.1 = k := by simpa using h.1
    unfold dictGet
    rw [List.cons_append, List.find?_cons_of_neg _ (by simpa using ha)]
    exact ih h.2

theorem dictGet_insert_self {α : Type} (m : List (String × α)) (k : String) (v : α) :
    dictGet (dictInsert m k v) k = some v := by
  unfold dictInsert
  by_cases h : m.any (fun p => p.1 = k) = true
  · rw [if_pos h]
    exact dictGet_map_replace k v m h
  · rw [Bool.not_eq_true] at h
    rw [if_neg (by simp [h])]
    exact dictGet_append_single k v m h

theorem dictGet_map_replace_ne {α : Type} {j k : String} (v : α) (h : j ≠ k)
    (m : List (String × α)) :
    dictGet (m.map (fun p => if p.1 = k then (p.1, v) else p)) j = dictGet m j := by
  unfold dictGet
  rw [List.find?_map]
  have hpred : ((fun p : String × α => decide (p.1 = j)) ∘
      (fun p => if p.1 = k then (p.1, v) else p)) = fun p : String × α => decide (p.1 = j) := by
    funext p
    by_cases hp : p.1 = k <;> simp [hp]
  rw [hpred]
  cases hf : m.find? (fun p : String × α => decide (p.1 = j)) with
  | none => rfl
  | some p =>
    have hj : p.1 = j := by simpa using List.find?_some hf
    have hk : ¬p.1 = k := by rw [hj]; exact h
    simp [hk]

theorem dictGet_append_single_ne {α : Type} {j k : String} (v : α) (h : j ≠ k)
    (m : List (String × α)) : dictGet (m ++ [(k, v)]) j = dictGet m j := by
  have hkj : ¬k = j := fun hq => h hq.symm
  unfold dictGet
  rw [List.find?_append]
  cases hf : m.find? (fun p : String × α => decide (p.1 = j)) with
  | some p => rfl
  | none =>
    have : ([(k, v)] : List (String × α)).find? (fun p => decide (p.1 = j)) = none := by
      simp [hkj]
    rw [this]
    rfl

theorem dictGet_insert_ne {α : Type} (m : List (String × α)) {j k : String} (v : α)
    (h : j ≠ k) : dictGet (dictInsert m k v) j = dictGet m j := by
  unfold dictInsert
  by_cases hm : m.any (fun p => p.1 = k) = true
  · rw [if_pos hm]
    exact dictGet_map_replace_ne v h m
  · rw [Bool.not_eq_true] at hm
    rw [if_neg (by simp [hm])]
    exact dictGet_append_single_ne v h m

theorem ctxGet_insert_self (c : Context) (k v : String) : ctxGet (ctxInsert c k v) k = some v :=
  dictGet_insert_self c k v

theorem ctxGet_insert_ne (c : Context) {j k : String} (v : String) (h : j ≠ k) :
    ctxGet (ctxInsert c k v) j = ctxGet c j :=
  dictGet_insert_ne c v h

theorem angle_ne_empty (x : String) : "<" ++ x ++ ">" ≠ "" := by
  intro h
  have hlen := congrArg String.length h
  rw [String.length_append, String.length_append] at hlen
  have h1 : String.length "<" = 1 := rfl
  have h2 : String.length ">" = 1 := rfl
  have h0 : String.length "" = 0 := rfl
  rw [h1, h2, h0] at hlen
  omega

theorem pyStrip_empty : pyStrip "" = "" := rfl

theorem placeholder_for_ne_empty (f : FieldSpec) : placeholder_for f ≠ "" := by
  unfold placeholder_for
  cases f.placeholder with
  | none => exact angle_ne_empty _
  | some p =>
    dsimp only
    by_cases hp : p ≠ ""
    · rw [if_pos hp]
      exact hp
    · rw [if_neg hp]
      exact angle_ne_empty _

theorem promptLoop_isSome (optional : Bool) (prompt_default : String)
    (h : optional = true ∨ prompt_default ≠ "") :
    ∀ inp, (promptLoop inp optional prompt_default).isSome := by
  intro inp
  induction inp with
  | nil =>
    unfold promptLoop
    by_cases hpd : prompt_default = ""
    · rcases h with h | h
      · simp [hpd, h, pyStrip_empty]
      · exact absurd hpd h
    · simp [hpd, pyStrip_empty]
  | cons x rest ih =>
    unfold promptLoop
    by_cases hc : ((if pyStrip x = "" ∧ prompt_default ≠ "" then prompt_default else pyStrip x) ≠ ""
        ∨ optional = true)
    · rw [if_pos hc]
      rfl
    · rw [if_neg hc]
      cases hr : promptLoop rest optional prompt_default with
      | none =>
        rw [hr] at ih
        exact absurd ih (by simp)
      | some r => simp

theorem promptLoop_total (optional : Bool) (prompt_default : String)
    (h : optional = true ∨ prompt_default ≠ "") :
    ∀ inp, ∃ r, promptLoop inp optional prompt_default = some r := by
  intro inp
  exact Option.isSome_iff_exists.mp (promptLoop_isSome optional prompt_default h inp)

theorem promptLoop_break (optional : Bool) (prompt_default : String) :
    ∀ inp u rest n, promptLoop inp optional prompt_default = some (u, rest, n) →
      u ≠ "" ∨ optional = true := by
  intro inp
  induction inp with
  | nil =>
    intro u rest n h
    unfold promptLoop at h
    by_cases hc : ((if pyStrip "" = "" ∧ prompt_default ≠ "" then prompt_default else pyStrip "") ≠ ""
        ∨ optional = true)
    · rw [if_pos hc] at h
      injection h with h1
      injection h1 with h2 h3
      subst h2
      exact hc
    · rw [if_neg hc] at h
      exact absurd h (by simp)
  | cons x tail ih =>
    intro u rest n h
    unfold promptLoop at h
    by_cases hc : ((if pyStrip x = "" ∧ prompt_default ≠ "" then prompt_default else pyStrip x) ≠ ""
        ∨ optional = true)
    · rw [if_pos hc] at h
      injection h with h1
      injection h1 with h2 h3
      subst h2
      exact hc
    · rw [if_neg hc] at h
      cases hr : promptLoop tail optional prompt_default with
      | none =>
        rw [hr] at h
        exact absurd h (by simp)
      | some r =>
        rw [hr] at h
        injection h with h1
        injection h1 with h2 h3
        subst h2
        exact ih r.1 r.2.1 r.2.2 (by rw [hr])

theorem collectField_prompt_default_ok (f : FieldSpec) (v : Context) :
    f.optional = true ∨
      (if field_default f v ≠ "" then field_default f v
       else if f.optional then "" else placeholder_for f) ≠ "" := by
  by_cases hd : field_default f v ≠ ""
  · right
    rw [if_pos hd]
    exact hd
  · cases ho : f.optional with
    | true => exact Or.inl rfl
    | false =>
      right
      rw [if_neg hd]
      simp only [Bool.false_eq_true, if_false]
      exact placeholder_for_ne_empty f

theorem collectField_total (skip : Bool) (v : Context) (i : List String) (p : List String)
    (f : FieldSpec) : ∃ st2, collectField skip (v, i, p) f = some st2 := by
  unfold collectField
  dsimp only
  by_cases hpre : ensure_value (some (ctxGetD v f.key "")) ≠ ""
  · rw [if_pos hpre]
    exact ⟨_, rfl⟩
  · rw [if_neg hpre]
    cases skip with
    | true => exact ⟨_, rfl⟩
    | false =>
      simp only [Bool.false_eq_true, if_false]
      obtain ⟨r, hr⟩ := promptLoop_total f.optional _ (collectField_prompt_default_ok f v) i
      rw [hr]
      exact ⟨_, rfl⟩

theorem collectFields_total (skip : Bool) :
    ∀ (fields : List FieldSpec) (st : Context × List String × List String),
      ∃ st2, collectFields skip fields st = some st2 := by
  intro fields
  induction fields with
  | nil => exact fun st => ⟨st, rfl⟩
  | cons f rest ih =>
    intro st
    obtain ⟨v, i, p⟩ := st
    obtain ⟨st1, h1⟩ := collectField_total skip v i p f
    obtain ⟨st2, h2⟩ := ih st1
    exact ⟨st2, by unfold collectFields; rw [h1]; exact h2⟩

theorem collectField_prefilled (skip : Bool) (v : Context) (i : List String) (p : List String)
    (f : FieldSpec) (h : ensure_value (some (ctxGetD v f.key "")) ≠ "") :
    collectField skip (v, i, p) f =
      some (ctxInsert v f.key (ensure_value (some (ctxGetD v f.key ""))), i, p) := by
  unfold collectField
  dsimp only
  rw [if_pos h]

theorem collectField_inserts (skip : Bool) (v : Context) (i : List String) (p : List String)
    (f : FieldSpec) (st2 : Context × List String × List String)
    (h : collectField skip (v, i, p) f = some st2) : ∃ u, st2.1 = ctxInsert v f.key u := by
  unfold collectField at h
  dsimp only at h
  by_cases hpre : ensure_value (some (ctxGetD v f.key "")) ≠ ""
  · rw [if_pos hpre] at h
    injection h with h1
    exact ⟨_, by rw [← h1]⟩
  · rw [if_neg hpre] at h
    cases skip with
    | true =>
      simp only [if_true] at h
      injection h with h1
      exact ⟨_, by rw [← h1]⟩
    | false =>
      simp only [Bool.false_eq_true, if_false] at h
      cases hr : promptLoop i f.optional
          (if field_default f v ≠ "" then field_default f v
           else if f.optional then "" else placeholder_for f) with
      | none =>
        rw [hr] at h
        exact absurd h (by simp)
      | some r =>
        rw [hr] at h
        injection h with h1
        exact ⟨_, by rw [← h1]⟩

theorem collectField_preserve (skip : Bool) (v : Context) (i : List String) (p : List String)
    (f : FieldSpec) {k w : String} (hk : ctxGet v k = some w) (hw : pyStrip w = w)
    (hne : w ≠ "") :
    ∀ st2, collectField skip (v, i, p) f = some st2 → ctxGet st2.1 k = some w := by
  intro st2 hc
  by_cases hkey : f.key = k
  · subst hkey
    have hval : ctxGetD v f.key "" = w := by
      unfold ctxGetD
      rw [hk]
      rfl
    have hpre : ensure_value (some (ctxGetD v f.key "")) = w := by
      rw [hval]
      simp only [ensure_value]
      exact hw
    rw [collectField_prefilled skip v i p f (by rw [hpre]; exact hne)] at hc
    injection hc with h1
    rw [← h1]
    dsimp only
    rw [hpre]
    exact ctxGet_insert_self v f.key w
  · obtain ⟨u, hu⟩ := collectField_inserts skip v i p f st2 hc
    rw [hu, ctxGet_insert_ne v u (fun hq => hkey hq.symm)]
    exact hk

theorem collectFields_preserve (skip : Bool) {k w : String} (hw : pyStrip w = w)
    (hne : w ≠ "") :
    ∀ (fields : List FieldSpec) (v : Context) (i p : List String)
      (st2 : Context × List String × List String), ctxGet v k = some w →
      collectFields skip fields (v, i, p) = some st2 → ctxGet st2.1 k = some w := by
  intro fields
  induction fields with
  | nil =>
    intro v i p st2 hk h
    injection h with h1
    rw [← h1]
    exact hk
  | cons f rest ih =>
    intro v i p st2 hk h
    unfold collectFields at h
    cases hc : collectField skip (v, i, p) f with
    | none =>
      rw [hc] at h
      exact absurd h (by simp)
    | some st1 =>
      rw [hc] at h
      obtain ⟨v1, i1, p1⟩ := st1
      exact ih v1 i1 p1 st2 (collectField_preserve skip v i p f hk hw hne _ hc) h

theorem collectFields_other (skip : Bool) {k : String} :
    ∀ (fields : List FieldSpec) (v : Context) (i p : List String)
      (st2 : Context × List String × List String), (∀ g ∈ fields, g.key ≠ k) →
      collectFields skip fields (v, i, p) = some st2 → ctxGet st2.1 k = ctxGet v k := by
  intro fields
  induction fields with
  | nil =>
    intro v i p st2 _ h
    injection h with h1
    rw [← h1]
  | cons f rest ih =>
    intro v i p st2 hkeys h
    unfold collectFields at h
    cases hc : collectField skip (v, i, p) f with
    | none =>
      rw [hc] at h
      exact absurd h (by simp)
    | some st1 =>
      rw [hc] at h
      obtain ⟨v1, i1, p1⟩ := st1
      obtain ⟨u, hu⟩ := collectField_inserts skip v i p f _ hc
      have h1 : ctxGet v1 k = ctxGet v k := by
        have := congrArg (fun c => ctxGet c k) hu
        dsimp only at this ⊢
        rw [this, ctxGet_insert_ne v u (fun hq => hkeys f (by simp) hq.symm)]
      rw [ih v1 i1 p1 st2 (fun g hg => hkeys g (by simp [hg])) h, h1]

theorem collectField_required_nonempty (skip : Bool) (v : Context) (i p : List String)
    (f : FieldSpec) (st2 : Context × List String × List String)
    (h : collectField skip (v, i, p) f = some st2) (hreq : f.optional = false) :
    ∃ u, ctxGet st2.1 f.key = some u ∧ u ≠ "" := by
  unfold collectField at h
  dsimp only at h
  by_cases hpre : ensure_value (some (ctxGetD v f.key "")) ≠ ""
  · rw [if_pos hpre] at h
    injection h with h1
    refine ⟨_, ?_, hpre⟩
    rw [← h1]
    exact ctxGet_insert_self v f.key _
  · rw [if_neg hpre] at h
    cases skip with
    | true =>
      simp only [if_true] at h
      injection h with h1
      refine ⟨(if field_default f v ≠ "" then field_default f v
               else if f.optional then "" else placeholder_for f), ?_, ?_⟩
      · rw [← h1]
        exact ctxGet_insert_self v f.key _
      · by_cases hd : field_default f v ≠ ""
        · rw [if_pos hd]
          exact hd
        · rw [if_neg hd, hreq]
          simp only [Bool.false_eq_true, if_false]
          exact placeholder_for_ne_empty f
    | false =>
      simp only [Bool.false_eq_true, if_false] at h
      cases hr : promptLoop i f.optional
          (if field_default f v ≠ "" then field_default f v
           else if f.optional then "" else placeholder_for f) with
      | none =>
        rw [hr] at h
        exact absurd h (by simp)
      | some r =>
        rw [hr] at h
        injection h with h1
        have hbr := promptLoop_break f.optional _ i r.1 r.2.1 r.2.2 (by rw [hr])
        refine ⟨r.1, ?_, ?_⟩
        · rw [← h1]
          exact ctxGet_insert_self v f.key _
        · rcases hbr with hbr | hbr
          · exact hbr
          · rw [hreq] at hbr
            exact absurd hbr (by simp)

theorem collectFields_required (skip : Bool) :
    ∀ (fields : List FieldSpec) (v : Context) (i p : List String)
      (st2 : Context × List String × List String),
      (fields.map FieldSpec.key).Nodup →
      collectFields skip fields (v, i, p) = some st2 →
      ∀ f ∈ fields, f.optional = false → ∃ u, ctxGet st2.1 f.key = some u ∧ u ≠ "" := by
  intro fields
  induction fields with
  | nil =>
    intro v i p st2 _ _ f hf
    exact absurd hf (by simp)
  | cons g rest ih =>
    intro v i p st2 hnodup h f hf hreq
    simp only [List.map_cons, List.nodup_cons] at hnodup
    simp only [collectFields] at h
    cases hc : collectField skip (v, i, p) g with
    | none =>
      rw [hc] at h
      exact absurd h (by simp)
    | some st1 =>
      rw [hc] at h
      obtain ⟨v1, i1, p1⟩ := st1
      rcases List.mem_cons.mp hf with rfl | hfr
      · obtain ⟨u, hu, hune⟩ := collectField_required_nonempty skip v i p f _ hc hreq
        have hother : ∀ g2 ∈ rest, g2.key ≠ f.key := by
          intro g2 hg2 hq
          exact hnodup.1 (List.mem_map.mpr ⟨g2, hg2, hq⟩)
        refine ⟨u, ?_, hune⟩
        rw [collectFields_other skip rest v1 i1 p1 st2 hother h]
        exact hu
      · exact ih v1 i1 p1 st2 hnodup.2 h f hfr hreq

theorem collectField_skip_default (v : Context) (i p : List String) (f : FieldSpec)
    (hpre : ¬ ensure_value (some (ctxGetD v f.key "")) ≠ "") :
    collectField true (v, i, p) f =
      some (ctxInsert v f.key
        (if field_default f v ≠ "" then field_default f v
         else if f.optional then "" else placeholder_for f), i, p) := by
  unfold collectField
  dsimp only
  rw [if_neg hpre]
  simp

theorem collectFields_skip_value :
    ∀ (fields : List FieldSpec) (v : Context) (inp prompts : List String)
      (st2 : Context × List String × List String) (i : Nat) (hi : i < fields.length),
      (fields.map FieldSpec.key).Nodup →
      collectFields true fields (v, inp, prompts) = some st2 →
      ensure_value (some (ctxGetD v (fields.get ⟨i, hi⟩).key "")) = "" →
      ∃ st, collectFields true (fields.take i) (v, inp, prompts) = some st ∧
        ctxGet st2.1 (fields.get ⟨i, hi⟩).key =
          some (if field_default (fields.get ⟨i, hi⟩) st.1 ≠ ""
                then field_default (fields.get ⟨i, hi⟩) st.1
                else if (fields.get ⟨i, hi⟩).optional then ""
                else placeholder_for (fields.get ⟨i, hi⟩)) := by
  intro fields
  induction fields with
  | nil =>
    intro v inp prompts st2 i hi
    exact absurd hi (by simp)
  | cons g rest ih =>
    intro v inp prompts st2 i hi hnodup h hempty
    simp only [List.map_cons, List.nodup_cons] at hnodup
    cases i with
    | zero =>
      refine ⟨(v, inp, prompts), rfl, ?_⟩
      simp only [List.get] at hempty ⊢
      have hstep := collectField_skip_default v inp prompts g (by rw [hempty]; simp)
      simp only [collectFields] at h
      rw [hstep] at h
      have hother : ∀ g2 ∈ rest, g2.key ≠ g.key := by
        intro g2 hg2 hq
        exact hnodup.1 (List.mem_map.mpr ⟨g2, hg2, hq⟩)
      rw [collectFields_other true rest _ inp prompts st2 hother h]
      exact ctxGet_insert_self v g.key _
    | succ j =>
      simp only [List.get] at hempty ⊢
      simp only [collectFields] at h
      cases hc : collectField true (v, inp, prompts) g with
      | none =>
        rw [hc] at h
        exact absurd h (by simp)
      | some st1 =>
        rw [hc] at h
        obtain ⟨v1, i1, p1⟩ := st1
        have hj : j < rest.length := Nat.lt_of_succ_lt_succ hi
        have hkne : g.key ≠ (rest.get ⟨j, hj⟩).key := by
          intro hq
          exact hnodup.1 (List.mem_map.mpr ⟨rest.get ⟨j, hj⟩, List.get_mem rest j hj, hq.symm⟩)
        obtain ⟨u, hu⟩ := collectField_inserts true v inp prompts g _ hc
        have hv1 : ctxGet v1 (rest.get ⟨j, hj⟩).key = ctxGet v (rest.get ⟨j, hj⟩).key := by
          have := congrArg (fun c => ctxGet c (rest.get ⟨j, hj⟩).key) hu
          dsimp only at this
          rw [this, ctxGet_insert_ne v u (fun hq => hkne hq.symm)]
        have hempty1 : ensure_value (some (ctxGetD v1 (rest.get ⟨j, hj⟩).key "")) = "" := by
          unfold ctxGetD at hempty ⊢
          rw [hv1]
          exact hempty
        obtain ⟨st, hst, hval⟩ := ih v1 i1 p1 st2 j hj hnodup.2 h hempty1
        refine ⟨st, ?_, hval⟩
        rw [List.take_succ_cons]
        simp only [collectFields]
        rw [hc]
        exact hst

theorem collectFields_append (skip : Bool) :
    ∀ (l1 l2 : List FieldSpec) (st : Context × List String × List String),
      collectFields skip (l1 ++ l2) st = (collectFields skip l1 st).bind (collectFields skip l2) := by
  intro l1
  induction l1 with
  | nil => intro l2 st; rfl
  | cons f rest ih =>
    intro l2 st
    rw [List.cons_append]
    simp only [collectFields]
    cases hc : collectField skip st f with
    | none => rfl
    | some st1 => exact ih l2 st1

theorem collect_field_values_eq (spec : LicenseSpec) (skip : Bool)
    (overrides : List (String × String)) (inp : List String) (hpp : spec.post_process = none) :
    collect_field_values spec skip overrides inp =
      collectFields skip spec.fields (overrides_init overrides, inp, []) := by
  unfold collect_field_values
  cases h : collectFields skip spec.fields (overrides_init overrides, inp, []) with
  | none => rfl
  | some st =>
    obtain ⟨v, i, p⟩ := st
    dsimp only
    rw [hpp]

theorem overrides_foldl_other (k : String) :
    ∀ (o : List (String × String)) (acc : Context), (∀ q ∈ o, q.1 ≠ k) →
      ctxGet (o.foldl (fun values kv =>
        let trimmed := ensure_value (some kv.2)
        if trimmed ≠ "" then ctxInsert values kv.1 trimmed else values) acc) k = ctxGet acc k := by
  intro o
  induction o with
  | nil => intro acc _; rfl
  | cons q rest ih =>
    intro acc hq
    rw [List.foldl_cons]
    rw [ih _ (fun x hx => hq x (by simp [hx]))]
    dsimp only
    by_cases ht : ensure_value (some q.2) ≠ ""
    · rw [if_pos ht, ctxGet_insert_ne acc _ (fun hke => hq q (by simp) hke.symm)]
    · rw [if_neg ht]

theorem overrides_foldl_mem (k v : String) (hne : pyStrip v ≠ "") :
    ∀ (o : List (String × String)) (acc : Context),
      (o.map Prod.fst).Nodup → (k, v) ∈ o →
      ctxGet (o.foldl (fun values kv =>
        let trimmed := ensure_value (some kv.2)
        if trimmed ≠ "" then ctxInsert values kv.1 trimmed else values) acc) k
        = some (pyStrip v) := by
  intro o
  induction o with
  | nil =>
    intro acc _ hmem
    exact absurd hmem (by simp)
  | cons q rest ih =>
    intro acc hnodup hmem
    simp only [List.map_cons, List.nodup_cons] at hnodup
    rw [List.foldl_cons]
    rcases List.mem_cons.mp hmem with heq | hmem2
    · have hothers : ∀ x ∈ rest, x.1 ≠ k := by
        intro x hx hxk
        apply hnodup.1
        rw [← heq]
        exact List.mem_map.mpr ⟨x, hx, by rw [hxk]⟩
      rw [overrides_foldl_other k rest _ hothers, ← heq]
      dsimp only
      have hev : ensure_value (some v) = pyStrip v := rfl
      rw [hev, if_pos hne]
      exact ctxGet_insert_self acc k (pyStrip v)
    · exact ih _ hnodup.2 hmem2

theorem overrides_init_mem (o : List (String × String)) (k v : String)
    (hnodup : (o.map Prod.fst).Nodup) (hmem : (k, v) ∈ o) (hne : pyStrip v ≠ "") :
    ctxGet (overrides_init o) k = some (pyStrip v) := by
  unfold overrides_init
  exact overrides_foldl_mem k v hne o [] hnodup hmem

/-! ### Registry registration lemmas -/

theorem regAliases_get (s : LicenseSpec) (k : String) :
    ∀ (as : List String) (m : List (String × LicenseSpec)),
      dictGet (as.foldl (fun m al => dictInsert m (normalize_license_key al) s) m) k =
        if as.any (fun al => normalize_license_key al = k) then some s else dictGet m k := by
  intro as
  induction as with
  | nil => intro m; simp
  | cons a rest ih =>
    intro m
    simp only [List.foldl_cons, List.any_cons]
    rw [ih]
    by_cases hr : rest.any (fun al => normalize_license_key al = k) = true
    · simp [hr]
    · rw [Bool.not_eq_true] at hr
      by_cases ha : normalize_license_key a = k
      · subst ha
        simp [hr, dictGet_insert_self]
      · simp [hr, ha, dictGet_insert_ne m s (fun hq => ha hq.symm)]

theorem regSpecs_aliases_get (k : String) :
    ∀ (ss : List LicenseSpec) (m : List (String × LicenseSpec)),
      dictGet (ss.foldl
        (fun m spec => spec.aliases.foldl
          (fun m al => dictInsert m (normalize_license_key al) spec) m) m) k =
        (match ss.reverse.find?
            (fun spec => spec.aliases.any (fun al => normalize_license_key al = k)) with
         | some spec => some spec
         | none => dictGet m k) := by
  intro ss
  induction ss with
  | nil => intro m; simp
  | cons s rest ih =>
    intro m
    simp only [List.foldl_cons, List.reverse_cons]
    rw [ih, List.find?_append]
    cases hf : rest.reverse.find?
        (fun spec => spec.aliases.any (fun al => normalize_license_key al = k)) with
    | some t => simp
    | none =>
      simp only [Option.none_or]
      rw [regAliases_get]
      by_cases hs : s.aliases.any (fun al => normalize_license_key al = k) = true
      · rw [List.find?_cons_of_pos _ (by simpa using hs)]
        simp [hs]
      · rw [Bool.not_eq_true] at hs
        rw [List.find?_cons_of_neg _ (by simp [hs])]
        simp [hs]

theorem regKeys_get (k : String) :
    ∀ (ss : List LicenseSpec) (m : List (String × LicenseSpec)),
      dictGet (ss.foldl (fun m spec => dictInsert m (normalize_license_key spec.key) spec) m) k =
        (match ss.reverse.find? (fun spec => normalize_license_key spec.key = k) with
         | some spec => some spec
         | none => dictGet m k) := by
  intro ss
  induction ss with
  | nil => intro m; simp
  | cons s rest ih =>
    intro m
    simp only [List.foldl_cons, List.reverse_cons]
    rw [ih, List.find?_append]
    cases hf : rest.reverse.find? (fun spec => normalize_license_key spec.key = k) with
    | some t => simp
    | none =>
      simp only [Option.none_or]
      by_cases hs : normalize_license_key s.key = k
      · subst hs
        rw [List.find?_cons_of_pos _ (by simp)]
        simp [dictGet_insert_self]
      · rw [List.find?_cons_of_neg _ (by simp [hs])]
        simp [dictGet_insert_ne m s (fun hq => hs hq.symm)]

theorem LICENSE_MAP_get (ip : IdentityProvider) (k : String) :
    dictGet (LICENSE_MAP ip) k =
      (match (LICENSE_SPECS ip).reverse.find?
          (fun spec => spec.aliases.any (fun al => normalize_license_key al = k)) with
       | some spec => some spec
       | none =>
         match (LICENSE_SPECS ip).reverse.find?
             (fun spec => normalize_license_key spec.key = k) with
         | some spec => some spec
         | none => none) := by
  unfold LICENSE_MAP
  simp only [mapInsert]
  rw [regSpecs_aliases_get, regKeys_get]
  have : dictGet ([] : List (String × LicenseSpec)) k = none := rfl
  rw [this]

theorem resolve_spec_toOption (ip : IdentityProvider) (name : String) :
    (resolve_spec ip name).toOption = dictGet (LICENSE_MAP ip) (normalize_license_key name) := by
  unfold resolve_spec dictGet
  cases (LICENSE_MAP ip).find? (fun p => p.1 = normalize_license_key name) with
  | some p => rfl
  | none => rfl

/-! ### C3: registry resolution and the lgpl21 collision -/

/-- C3: for every registered spec and every identifier that is its key or
one of its aliases, resolving that identifier returns that spec, except
for identifiers normalizing to `"lgpl21"` — shared between
LGPL-2.1-or-later and the later-registered LGPL-2.1-only — which resolve
to LGPL-2.1-only, the last-registered owner. -/
theorem c3_registry_resolution (ip : IdentityProvider) :
    ∀ spec ∈ LICENSE_SPECS ip, ∀ ident ∈ identifiersOf spec,
      (resolve_spec ip ident).toOption.map LicenseSpec.key =
        some (if normalize_license_key ident = "lgpl21" then "LGPL-2.1-only" else spec.key) := by
  intro spec hspec ident hident
  rw [resolve_spec_toOption, LICENSE_MAP_get]
  fin_cases hspec <;> fin_cases hident <;> rfl

/-- Witness for C3: the shared alias `"lgpl21"`, registered for
LGPL-2.1-or-later (via `"lgpl-2.1"`), resolves to LGPL-2.1-only. -/
theorem c3_witness :
    (resolve_spec ipAnon "lgpl-2.1").toOption.map LicenseSpec.key =
      some (if normalize_license_key "lgpl-2.1" = "lgpl21" then "LGPL-2.1-only"
            else (spec_LGPL_2_1_or_later ipAnon).key) :=
  c3_registry_resolution ipAnon (spec_LGPL_2_1_or_later ipAnon) (by simp [LICENSE_SPECS])
    "lgpl-2.1" (by simp [identifiersOf, spec_LGPL_2_1_or_later])

/-! ### C1: the trailing-newline guarantee -/

theorem finalize_newline_ends (b : String) : pyEndsWith (finalize_newline b) "\n" = true := by
  unfold finalize_newline
  by_cases hb : pyEndsWith b "\n" = true
  · simp [hb]
  · rw [if_neg (by simpa using hb)]
    exact pyEndsWith_append_nl b

/-- C1 counterexample: with the MIT template body ending in two newlines
(template contents are opaque to the program), rendering the context that
non-interactive collection itself resolves produces output ending in two
newlines, not exactly one. -/
theorem c1_counterexample :
    (collect_field_values (spec_MIT ipAnon) true [] []).map (fun r => r.1) =
      some [("year", "2025"), ("copyright_holder", "<copyright holder>"), ("email", "")] ∧
    render_license c1Store (spec_MIT ipAnon)
        [("year", "2025"), ("copyright_holder", "<copyright holder>"), ("email", "")] =
      .ok "2025 <copyright holder>\n\n" ∧
    pyEndsWith "2025 <copyright holder>\n\n" "\n\n" = true :=
  ⟨rfl, rfl, rfl⟩

/-- C1 (amended): `render_license` output always ends in at least one
newline and is non-empty; a newline is appended exactly when the rendered
body lacks one and an existing one is never duplicated, so the output ends
in exactly one newline whenever the body does not already end in two
(pre-existing multiple trailing newlines are preserved). -/
theorem c1_trailing_newline (spec : LicenseSpec) (store : String → Option String)
    (context : Context) (out : String)
    (h : render_license store spec context = .ok out) :
    pyEndsWith out "\n" = true ∧ out ≠ "" ∧
      ∀ body, render_body store spec context = .ok body →
        out = finalize_newline body ∧
        (pyEndsWith body "\n" = false → out = body ++ "\n") ∧
        (pyEndsWith body "\n" = true → out = body) ∧
        (pyEndsWith body "\n\n" = false → pyEndsWith out "\n\n" = false) := by
  unfold render_license at h
  cases hb : render_body store spec context with
  | error e =>
    rw [hb] at h
    exact absurd h (by simp [Except.map])
  | ok body0 =>
    rw [hb] at h
    simp only [Except.map, Except.ok.injEq] at h
    have hout : out = finalize_newline body0 := h.symm
    refine ⟨hout ▸ finalize_newline_ends body0, ?_, ?_⟩
    · exact pyEndsWith_ne_empty (hout ▸ finalize_newline_ends body0) (by decide)
    · intro body hbody
      injection hbody with hbe
      subst hbe
      refine ⟨hout, ?_, ?_, ?_⟩
      · intro hne
        rw [hout]
        unfold finalize_newline
        rw [if_neg (by simp [hne])]
      · intro hend
        rw [hout]
        unfold finalize_newline
        rw [if_pos hend]
      · intro h2
        by_cases hend : pyEndsWith body0 "\n" = true
        · rw [hout]
          unfold finalize_newline
          rw [if_pos hend]
          exact h2
        · rw [hout]
          unfold finalize_newline
          rw [if_neg (by simpa using hend), pyEndsWith_append_nl_two]
          simpa using hend

/-- Witness for C1 (amended) at a concrete rendering of the Boost spec. -/
theorem c1_witness :
    pyEndsWith "Copyright (c) 2025 Ann\n\nBODY\n" "\n" = true ∧
    "Copyright (c) 2025 Ann\n\nBODY\n" ≠ "" ∧
      ∀ body, render_body storeBSL (spec_BSL_1_0 ipAnn)
          [("year", "2025"), ("copyright_holder", "Ann")] = .ok body →
        "Copyright (c) 2025 Ann\n\nBODY\n" = finalize_newline body ∧
        (pyEndsWith body "\n" = false → "Copyright (c) 2025 Ann\n\nBODY\n" = body ++ "\n") ∧
        (pyEndsWith body "\n" = true → "Copyright (c) 2025 Ann\n\nBODY\n" = body) ∧
        (pyEndsWith body "\n\n" = false →
          pyEndsWith "Copyright (c) 2025 Ann\n\nBODY\n" "\n\n" = false) :=
  c1_trailing_newline (spec_BSL_1_0 ipAnn) storeBSL
    [("year", "2025"), ("copyright_holder", "Ann")] "Copyright (c) 2025 Ann\n\nBODY\n" (by rfl)

theorem collectFields_set_congr (skip : Bool) :
    ∀ (fields : List FieldSpec) (n : Nat) (g : FieldSpec) (v : Context) (i p : List String)
      {w : String} (hn : n < fields.length),
      g.key = (fields.get ⟨n, hn⟩).key →
      ctxGet v (fields.get ⟨n, hn⟩).key = some w → pyStrip w = w → w ≠ "" →
      collectFields skip (fields.set n g) (v, i, p) = collectFields skip fields (v, i, p) := by
  intro fields
  induction fields with
  | nil =>
    intro n g v i p w hn
    exact absurd hn (by simp)
  | cons f rest ih =>
    intro n g v i p w hn hkey hw hfix hne
    cases n with
    | zero =>
      simp only [List.get] at hkey hw
      rw [List.set_cons_zero]
      simp only [collectFields]
      have hval : ctxGetD v f.key "" = w := by
        unfold ctxGetD
        rw [hw]
        rfl
      have hpreeq : ensure_value (some (ctxGetD v f.key "")) = w := by
        rw [hval]
        simp only [ensure_value]
        exact hfix
      have hvalg : ensure_value (some (ctxGetD v g.key "")) = w := by
        rw [hkey]
        exact hpreeq
      rw [collectField_prefilled skip v i p f (by rw [hpreeq]; exact hne),
          collectField_prefilled skip v i p g (by rw [hvalg]; exact hne)]
      dsimp only
      rw [hpreeq, hvalg, hkey]
    | succ m =>
      rw [List.set_cons_succ]
      simp only [collectFields]
      cases hc : collectField skip (v, i, p) f with
      | none => rfl
      | some st1 =>
        obtain ⟨v1, i1, p1⟩ := st1
        have hm : m < rest.length := Nat.lt_of_succ_lt_succ hn
        simp only [List.get] at hkey hw
        have hv1 : ctxGet v1 (rest.get ⟨m, hm⟩).key = some w :=
          collectField_preserve skip v i p f hw hfix hne _ hc
        exact ih m g v1 i1 p1 hm hkey hv1 hfix hne

/-! ### C4: override precedence -/

/-- C4 counterexample: the override `year = " 2024 "` (non-empty after
trimming) is not stored verbatim — the collected context holds the trimmed
value `"2024"`. -/
theorem c4_counterexample :
    (collect_field_values (spec_MIT ipAnn) true [("year", " 2024 ")] []).map
        (fun r => ctxGet r.1 "year") = some (some "2024") ∧
    ("2024" : String) ≠ " 2024 " := ⟨rfl, by decide⟩

/-- C4 (amended): a field whose key is supplied by the overrides mapping
with a value that is non-empty after trimming receives that value trimmed
of surrounding whitespace (hence verbatim when it has none); the field's
`default_factory` is not invoked and no prompt is presented — replacing
the field by any field with the same key (hence any prompt text, default
factory, optional flag or placeholder) leaves the entire collection run,
its remaining input stream and its prompt log unchanged. -/
theorem c4_override_precedence (spec : LicenseSpec) (skip : Bool)
    (overrides : List (String × String)) (inp : List String) (n : Nat)
    (hn : n < spec.fields.length) (v : String)
    (hpp : spec.post_process = none)
    (hnodupO : (overrides.map Prod.fst).Nodup)
    (hmem : ((spec.fields.get ⟨n, hn⟩).key, v) ∈ overrides)
    (hne : pyStrip v ≠ "") :
    (∃ r, collect_field_values spec skip overrides inp = some r ∧
      ctxGet r.1 (spec.fields.get ⟨n, hn⟩).key = some (pyStrip v)) ∧
    (∀ g : FieldSpec, g.key = (spec.fields.get ⟨n, hn⟩).key →
      collect_field_values (withFieldAt spec n g) skip overrides inp =
        collect_field_values spec skip overrides inp) := by
  have hinit : ctxGet (overrides_init overrides) (spec.fields.get ⟨n, hn⟩).key
      = some (pyStrip v) := overrides_init_mem overrides _ v hnodupO hmem hne
  have hfix : pyStrip (pyStrip v) = pyStrip v := pyStrip_idem v
  constructor
  · obtain ⟨st2, hst2⟩ := collectFields_total skip spec.fields (overrides_init overrides, inp, [])
    refine ⟨st2, ?_, ?_⟩
    · rw [collect_field_values_eq spec skip overrides inp hpp]
      exact hst2
    · exact collectFields_preserve skip hfix hne spec.fields _ inp [] st2 hinit hst2
  · intro g hg
    have hpp2 : (withFieldAt spec n g).post_process = none := hpp
    rw [collect_field_values_eq _ skip overrides inp hpp2,
        collect_field_values_eq spec skip overrides inp hpp]
    exact collectFields_set_congr skip spec.fields n g _ inp [] hn hg hinit hfix hne

/-- Witness for C4 (amended): overriding `year` on MIT. -/
theorem c4_witness :
    (∃ r, collect_field_values (spec_MIT ipAnn) true [("year", "2031")] [] = some r ∧
      ctxGet r.1 ((spec_MIT ipAnn).fields.get ⟨0, by decide⟩).key = some (pyStrip "2031")) ∧
    (∀ g : FieldSpec, g.key = ((spec_MIT ipAnn).fields.get ⟨0, by decide⟩).key →
      collect_field_values (withFieldAt (spec_MIT ipAnn) 0 g) true [("year", "2031")] [] =
        collect_field_values (spec_MIT ipAnn) true [("year", "2031")] []) :=
  c4_override_precedence (spec_MIT ipAnn) true [("year", "2031")] [] 0 (by decide)
    "2031" rfl (by decide) (by decide) (by decide)

/-! ### C5: guarantees of field collection -/

/-- C5: for every spec (with unique field keys and no `post_process`, as
all registered specs satisfy), any overrides and either mode, field
collection terminates and its context maps every required field key to a
non-empty string; in non-interactive mode a field not prefilled by an
override receives its computed default, or — when the default is empty —
the empty string if optional and the placeholder literal if required. -/
theorem c5_field_resolution (spec : LicenseSpec) (skip_prompts : Bool)
    (overrides : List (String × String)) (inp : List String)
    (hpp : spec.post_process = none)
    (hnodup : (spec.fields.map FieldSpec.key).Nodup) :
    ∃ r, collect_field_values spec skip_prompts overrides inp = some r ∧
      (∀ f ∈ spec.fields, f.optional = false → ∃ u, ctxGet r.1 f.key = some u ∧ u ≠ "") ∧
      (skip_prompts = true →
        ∀ i, ∀ hi : i < spec.fields.length,
          ensure_value (some (ctxGetD (overrides_init overrides)
            ((spec.fields.get ⟨i, hi⟩).key) "")) = "" →
          ∃ st, collectFields true (spec.fields.take i)
              (overrides_init overrides, inp, []) = some st ∧
            ctxGet r.1 ((spec.fields.get ⟨i, hi⟩).key) =
              some (if field_default (spec.fields.get ⟨i, hi⟩) st.1 ≠ ""
                    then field_default (spec.fields.get ⟨i, hi⟩) st.1
                    else if (spec.fields.get ⟨i, hi⟩).optional then ""
                    else placeholder_for (spec.fields.get ⟨i, hi⟩))) := by
  obtain ⟨st2, hst2⟩ :=
    collectFields_total skip_prompts spec.fields (overrides_init overrides, inp, [])
  refine ⟨st2, ?_, ?_, ?_⟩
  · rw [collect_field_values_eq spec skip_prompts overrides inp hpp]
    exact hst2
  · exact fun f hf =>
      collectFields_required skip_prompts spec.fields _ inp [] st2 hnodup hst2 f hf
  · intro hskip i hi hemp
    subst hskip
    exact collectFields_skip_value spec.fields _ inp [] st2 i hi hnodup hst2 hemp

/-- Witness for C5 at the ISC spec, non-interactively with no overrides. -/
theorem c5_witness :
    ∃ r, collect_field_values (spec_ISC ipAnn) true [] [] = some r ∧
      (∀ f ∈ (spec_ISC ipAnn).fields, f.optional = false →
        ∃ u, ctxGet r.1 f.key = some u ∧ u ≠ "") ∧
      (true = true →
        ∀ i, ∀ hi : i < (spec_ISC ipAnn).fields.length,
          ensure_value (some (ctxGetD (overrides_init [])
            (((spec_ISC ipAnn).fields.get ⟨i, hi⟩).key) "")) = "" →
          ∃ st, collectFields true ((spec_ISC ipAnn).fields.take i)
              (overrides_init [], [], []) = some st ∧
            ctxGet r.1 (((spec_ISC ipAnn).fields.get ⟨i, hi⟩).key) =
              some (if field_default ((spec_ISC ipAnn).fields.get ⟨i, hi⟩) st.1 ≠ ""
                    then field_default ((spec_ISC ipAnn).fields.get ⟨i, hi⟩) st.1
                    else if ((spec_ISC ipAnn).fields.get ⟨i, hi⟩).optional then ""
                    else placeholder_for ((spec_ISC ipAnn).fields.get ⟨i, hi⟩))) :=
  c5_field_resolution (spec_ISC ipAnn) true [] [] rfl (by decide)

/-! ### C10: literal-constant fallback of `evaluate_value` -/

/-- C10: when a `ReplacementSpec` value is a string, `evaluate_value`
dereferences it through the context exactly when the string is a context
key; otherwise the string itself is the substitution text. -/
theorem c10_string_value_fallback (ctx : Context) (s : String) :
    (ctxGet ctx s = none → evaluate_value (.ofStr s) ctx = s) ∧
    (∀ v, ctxGet ctx s = some v → evaluate_value (.ofStr s) ctx = v) := by
  constructor
  · intro h
    simp [evaluate_value, h]
  · intro v h
    simp [evaluate_value, h]

/-- Witness for C10 at a concrete context that lacks the key: the raw
value string is inserted. -/
theorem c10_witness : evaluate_value (.ofStr "custom") [("a", "1")] = "custom" :=
  (c10_string_value_fallback [("a", "1")] "custom").1 rfl

/-! ### C2: `build_program_tagline` -/

/-- C2 counterexample: on `{program_name: "Foo", email: "a@b.c"}` the
tagline is `"Foo - <a@b.c>"` (the email is a joined segment), not the
`"Foo <a@b.c>"` the claim asserts. -/
theorem c2_counterexample :
    build_program_tagline [("program_name", "Foo"), ("email", "a@b.c")] = "Foo - <a@b.c>" ∧
    ("Foo - <a@b.c>" : String) ≠ "Foo <a@b.c>" := by
  exact ⟨rfl, by decide⟩

theorem tagline_core (pieces : List String) (e : String) :
    (if (if e ≠ "" then pieces ++ ["<" ++ e ++ ">"] else pieces) ≠ [] then
       pyJoin " - " (if e ≠ "" then pieces ++ ["<" ++ e ++ ">"] else pieces)
     else "This program") =
    (if e ≠ "" then
       (if pieces = [] then "<" ++ e ++ ">"
        else pyJoin " - " pieces ++ " - " ++ ("<" ++ e ++ ">"))
     else if pieces = [] then "This program" else pyJoin " - " pieces) := by
  by_cases he : e = "" <;> by_cases hp : pieces = [] <;>
    simp [he, hp, pyJoin, pyJoin_append_one, String.append_assoc]

/-- C2 (amended): `build_program_tagline` joins the non-empty trimmed
program pieces with `" - "`, joins `"<email>"` on as a final segment
whenever the email is non-empty (so it too is separated by `" - "` when
other pieces exist), and falls back to `"This program"` when no piece and
no email produced output; on the empty context it returns
`"This program"`, and on `{program_name: "Foo", email: "a@b.c"}` it
returns `"Foo - <a@b.c>"`. -/
theorem c2_tagline (ctx : Context) :
    (build_program_tagline ctx =
      (if ensure_value (ctxGet ctx "email") ≠ "" then
         (if [ensure_value (ctxGet ctx "program_name"),
              ensure_value (ctxGet ctx "program_description"),
              ensure_value (ctxGet ctx "program_url")].filter (fun segment => segment ≠ "") = [] then
            "<" ++ ensure_value (ctxGet ctx "email") ++ ">"
          else
            pyJoin " - "
              ([ensure_value (ctxGet ctx "program_name"),
                ensure_value (ctxGet ctx "program_description"),
                ensure_value (ctxGet ctx "program_url")].filter (fun segment => segment ≠ "")) ++
              " - " ++ ("<" ++ ensure_value (ctxGet ctx "email") ++ ">"))
       else if [ensure_value (ctxGet ctx "program_name"),
                ensure_value (ctxGet ctx "program_description"),
                ensure_value (ctxGet ctx "program_url")].filter (fun segment => segment ≠ "") = [] then
         "This program"
       else
         pyJoin " - "
           ([ensure_value (ctxGet ctx "program_name"),
             ensure_value (ctxGet ctx "program_description"),
             ensure_value (ctxGet ctx "program_url")].filter (fun segment => segment ≠ "")))) ∧
    build_program_tagline [] = "This program" ∧
    build_program_tagline [("program_name", "Foo"), ("email", "a@b.c")] = "Foo - <a@b.c>" := by
  refine ⟨?_, rfl, rfl⟩
  exact tagline_core _ _

/-! ### C6: preamble formatting -/

theorem FmtOk_map (ctx : Context) (ks : List String) (e : Except FormatError String)
    (f : String → String) (h : FmtOk ctx ks e) : FmtOk ctx ks (e.map f) := by
  cases e with
  | ok s => exact h
  | error err => exact h

theorem FmtOk_close (ctx : Context) (k0 : String) (ks' : List String)
    (e : Except FormatError String) (f : String → String → String) (he : FmtOk ctx ks' e) :
    FmtOk ctx (k0 :: ks')
      (match ctxGet ctx k0 with
       | none => .error (.missingKey k0)
       | some v => e.map (f v)) := by
  cases hg : ctxGet ctx k0 with
  | none => exact ⟨[], ks', rfl, by simp, hg⟩
  | some v =>
    cases e with
    | ok s =>
      intro k hk
      rcases List.mem_cons.mp hk with rfl | hk2
      · simp [hg]
      · exact he k hk2
    | error err =>
      cases err with
      | malformed => exact he
      | missingKey km =>
        obtain ⟨pre, post, hks, hpre, hkm⟩ := he
        refine ⟨k0 :: pre, post, by rw [hks, List.cons_append], ?_, hkm⟩
        intro j hj
        rcases List.mem_cons.mp hj with rfl | hj2
        · simp [hg]
        · exact hpre j hj2

theorem formatKeys_spec (ctx : Context) :
    ∀ (l : List Char) (st : FmtState) (ks : List String),
      templateKeysGo l st = some ks → FmtOk ctx ks (formatMapGo ctx l st) := by
  intro l
  induction l with
  | nil =>
    intro st ks h
    cases st with
    | text =>
      simp only [templateKeysGo, Option.some.injEq] at h
      subst h
      intro k hk
      exact absurd hk (by simp)
    | afterOpen => exact absurd h (by simp [templateKeysGo])
    | afterClose => exact absurd h (by simp [templateKeysGo])
    | field acc => exact absurd h (by simp [templateKeysGo])
  | cons c rest ih =>
    intro st ks h
    cases st with
    | text =>
      simp only [templateKeysGo] at h
      simp only [formatMapGo]
      by_cases h1 : c = '\x7b'
      · rw [if_pos h1] at h ⊢
        exact ih _ ks h
      · rw [if_neg h1] at h ⊢
        by_cases h2 : c = '\x7d'
        · rw [if_pos h2] at h ⊢
          exact ih _ ks h
        · rw [if_neg h2] at h ⊢
          exact FmtOk_map ctx ks _ _ (ih _ ks h)
    | afterOpen =>
      simp only [templateKeysGo] at h
      simp only [formatMapGo]
      by_cases h1 : c = '\x7b'
      · rw [if_pos h1] at h ⊢
        exact FmtOk_map ctx ks _ _ (ih _ ks h)
      · rw [if_neg h1] at h ⊢
        by_cases h2 : c = '\x7d'
        · rw [if_pos h2] at h ⊢
          cases hks : templateKeysGo rest .text with
          | none =>
            rw [hks] at h
            exact absurd h (by simp)
          | some ks' =>
            rw [hks] at h
            simp only [Option.map, Option.some.injEq] at h
            subst h
            exact FmtOk_close ctx "" ks' _ (fun v t => v ++ t) (ih _ ks' hks)
        · rw [if_neg h2] at h ⊢
          exact ih _ ks h
    | afterClose =>
      simp only [templateKeysGo] at h
      simp only [formatMapGo]
      by_cases h1 : c = '\x7d'
      · rw [if_pos h1] at h ⊢
        exact FmtOk_map ctx ks _ _ (ih _ ks h)
      · rw [if_neg h1] at h
        exact absurd h (by simp)
    | field acc =>
      simp only [templateKeysGo] at h
      simp only [formatMapGo]
      by_cases h1 : c = '\x7d'
      · rw [if_pos h1] at h ⊢
        cases hks : templateKeysGo rest .text with
        | none =>
          rw [hks] at h
          exact absurd h (by simp)
        | some ks' =>
          rw [hks] at h
          simp only [Option.map, Option.some.injEq] at h
          subst h
          exact FmtOk_close ctx (String.mk acc.reverse) ks' _ (fun v t => v ++ t) (ih _ ks' hks)
      · rw [if_neg h1] at h ⊢
        exact ih _ ks h

/-- C6: for a spec's preamble template (well-formed, with referenced keys
`ks`), formatting fails — with the message naming the absent key — exactly
when some referenced key is missing from the context; otherwise the
rendered preamble is stripped and, when non-empty, prepended to the body
separated by one blank line, the body being returned unmodified when the
stripped preamble is empty. -/
theorem c6_preamble_formatting (template text : String) (ctx : Context) (ks : List String)
    (hwf : templateKeys template = some ks) :
    ((∀ k ∈ ks, (ctxGet ctx k).isSome) →
      ∃ rendered, formatMapGo ctx template.toList .text = .ok rendered ∧
        append_preamble text template ctx =
          .ok (if pyStrip rendered = "" then text else pyStrip rendered ++ "\n\n" ++ text)) ∧
    ((∃ k ∈ ks, ctxGet ctx k = none) →
      ∃ k, k ∈ ks ∧ ctxGet ctx k = none ∧
        append_preamble text template ctx =
          .error ("Missing value '" ++ k ++ "' required by this template")) := by
  have hspec := formatKeys_spec ctx template.toList .text ks hwf
  constructor
  · intro hall
    cases hf : formatMapGo ctx template.toList .text with
    | ok rendered =>
      refine ⟨rendered, rfl, ?_⟩
      unfold append_preamble
      rw [hf]
      dsimp only
      by_cases hr : pyStrip rendered = "" <;> simp [hr]
    | error err =>
      rw [hf] at hspec
      cases err with
      | malformed => exact absurd hspec (by simp [FmtOk])
      | missingKey k =>
        simp only [FmtOk] at hspec
        obtain ⟨pre, post, hks, _, hk⟩ := hspec
        have hsome : (ctxGet ctx k).isSome := hall k (by rw [hks]; simp)
        rw [hk] at hsome
        exact absurd hsome (by simp)
  · intro hex
    obtain ⟨k0, hk0, hnone⟩ := hex
    cases hf : formatMapGo ctx template.toList .text with
    | ok rendered =>
      rw [hf] at hspec
      simp only [FmtOk] at hspec
      have := hspec k0 hk0
      rw [hnone] at this
      exact absurd this (by simp)
    | error err =>
      rw [hf] at hspec
      cases err with
      | malformed => exact absurd hspec (by simp [FmtOk])
      | missingKey k =>
        simp only [FmtOk] at hspec
        obtain ⟨pre, post, hks, hpre, hk⟩ := hspec
        refine ⟨k, by rw [hks]; simp, hk, ?_⟩
        unfold append_preamble
        rw [hf]

/-- Witness for C6 on a one-key template with the key present. -/
theorem c6_witness :
    ((∀ k ∈ ["a"], (ctxGet [("a", "X")] k).isSome) →
      ∃ rendered, formatMapGo [("a", "X")] "{a}".toList .text = .ok rendered ∧
        append_preamble "B" "{a}" [("a", "X")] =
          .ok (if pyStrip rendered = "" then "B" else pyStrip rendered ++ "\n\n" ++ "B")) ∧
    ((∃ k ∈ ["a"], ctxGet [("a", "X")] k = none) →
      ∃ k, k ∈ ["a"] ∧ ctxGet [("a", "X")] k = none ∧
        append_preamble "B" "{a}" [("a", "X")] =
          .error ("Missing value '" ++ k ++ "' required by this template")) :=
  c6_preamble_formatting "{a}" "B" [("a", "X")] ["a"] rfl

/-! ### C8: noninterference of unused overrides -/

theorem agreesExcept_refl (k : String) (c : Context) : agreesExcept k c c :=
  fun _ _ => rfl

theorem agreesExcept_insert {k : String} {c1 c2 : Context} (h : agreesExcept k c1 c2)
    (j v : String) : agreesExcept k (ctxInsert c1 j v) (ctxInsert c2 j v) := by
  intro m hm
  by_cases hmj : m = j
  · subst hmj
    rw [ctxGet_insert_self, ctxGet_insert_self]
  · rw [ctxGet_insert_ne _ _ hmj, ctxGet_insert_ne _ _ hmj]
    exact h m hm

theorem agreesExcept_insert_left {k : String} (c : Context) (v : String) :
    agreesExcept k (ctxInsert c k v) c := by
  intro m hm
  rw [ctxGet_insert_ne _ _ hm]

theorem collectField_agrees (skip : Bool) (f : FieldSpec) {k : String} (hkey : f.key ≠ k)
    (hdf : ∀ df, f.default_factory = some df → ∀ c1 c2, agreesExcept k c1 c2 → df c1 = df c2)
    {v1 v2 : Context} (i p : List String) (hag : agreesExcept k v1 v2) :
    ∀ st1, collectField skip (v1, i, p) f = some st1 →
      ∃ st2, collectField skip (v2, i, p) f = some st2 ∧
        agreesExcept k st1.1 st2.1 ∧ st1.2 = st2.2 := by
  intro st1 h1
  have hpre_eq : ctxGetD v2 f.key "" = ctxGetD v1 f.key "" := by
    unfold ctxGetD
    rw [hag f.key hkey]
  have hdflt : field_default f v2 = field_default f v1 := by
    unfold field_default
    cases hdfc : f.default_factory with
    | none => rfl
    | some df =>
      dsimp only
      rw [hdf df hdfc v1 v2 hag]
  unfold collectField at h1 ⊢
  dsimp only at h1 ⊢
  rw [hpre_eq, hdflt]
  by_cases hp : ensure_value (some (ctxGetD v1 f.key "")) ≠ ""
  · rw [if_pos hp] at h1 ⊢
    injection h1 with h1e
    refine ⟨_, rfl, ?_, ?_⟩
    · rw [← h1e]
      exact agreesExcept_insert hag f.key _
    · rw [← h1e]
  · rw [if_neg hp] at h1 ⊢
    cases skip with
    | true =>
      simp only [if_true] at h1 ⊢
      injection h1 with h1e
      refine ⟨_, rfl, ?_, ?_⟩
      · rw [← h1e]
        exact agreesExcept_insert hag f.key _
      · rw [← h1e]
    | false =>
      simp only [Bool.false_eq_true, if_false] at h1 ⊢
      cases hr : promptLoop i f.optional
          (if field_default f v1 ≠ "" then field_default f v1
           else if f.optional then "" else placeholder_for f) with
      | none =>
        rw [hr] at h1
        exact absurd h1 (by simp)
      | some r =>
        rw [hr] at h1
        dsimp only at h1 ⊢
        injection h1 with h1e
        refine ⟨_, rfl, ?_, ?_⟩
        · rw [← h1e]
          exact agreesExcept_insert hag f.key _
        · rw [← h1e]

theorem collectFields_agrees (skip : Bool) {k : String} :
    ∀ (fields : List FieldSpec) (v1 v2 : Context) (i p : List String),
      (∀ f ∈ fields, f.key ≠ k) →
      (∀ f ∈ fields, ∀ df, f.default_factory = some df →
        ∀ c1 c2, agreesExcept k c1 c2 → df c1 = df c2) →
      agreesExcept k v1 v2 →
      ∃ st1 st2, collectFields skip fields (v1, i, p) = some st1 ∧
        collectFields skip fields (v2, i, p) = some st2 ∧
        agreesExcept k st1.1 st2.1 ∧ st1.2 = st2.2 := by
  intro fields
  induction fields with
  | nil =>
    intro v1 v2 i p _ _ hag
    exact ⟨(v1, i, p), (v2, i, p), rfl, rfl, hag, rfl⟩
  | cons f rest ih =>
    intro v1 v2 i p hks hdfs hag
    obtain ⟨st1, h1⟩ := collectField_total skip v1 i p f
    obtain ⟨st2, h2, hag1, heq⟩ :=
      collectField_agrees skip f (hks f (by simp))
        (fun df hdf => hdfs f (by simp) df hdf) i p hag st1 h1
    obtain ⟨v1n, i1, p1⟩ := st1
    obtain ⟨v2n, i2, p2⟩ := st2
    dsimp only at hag1 heq
    have hi : i1 = i2 := congrArg (fun q => q.1) heq
    have hp : p1 = p2 := congrArg (fun q => q.2) heq
    subst hi
    subst hp
    obtain ⟨sA, sB, hA, hB, hagF, heqF⟩ :=
      ih v1n v2n i1 p1 (fun g hg => hks g (by simp [hg]))
        (fun g hg => hdfs g (by simp [hg])) hag1
    refine ⟨sA, sB, ?_, ?_, hagF, heqF⟩
    · simp only [collectFields]
      rw [h1]
      exact hA
    · simp only [collectFields]
      rw [h2]
      exact hB

theorem apply_replacements_agrees :
    ∀ (reps : List ReplacementSpec) (c1 c2 : Context),
      (∀ r ∈ reps, evaluate_value r.value c1 = evaluate_value r.value c2) →
      ∀ text, apply_replacements text reps c1 = apply_replacements text reps c2 := by
  intro reps
  induction reps with
  | nil => intro c1 c2 _ text; rfl
  | cons r rest ih =>
    intro c1 c2 h text
    unfold apply_replacements
    rw [List.foldl_cons, List.foldl_cons]
    dsimp only
    rw [h r (by simp)]
    exact ih c1 c2 (fun r2 h2 => h r2 (by simp [h2])) _

theorem formatMapGo_agrees {k : String} {c1 c2 : Context} (hag : agreesExcept k c1 c2) :
    ∀ (l : List Char) (st : FmtState) (ks : List String),
      templateKeysGo l st = some ks → k ∉ ks →
      formatMapGo c1 l st = formatMapGo c2 l st := by
  intro l
  induction l with
  | nil => intro st ks _ _; cases st <;> rfl
  | cons c rest ih =>
    intro st ks h hk
    cases st with
    | text =>
      simp only [templateKeysGo] at h
      simp only [formatMapGo]
      by_cases h1 : c = '\x7b'
      · rw [if_pos h1] at h
        rw [if_pos h1, if_pos h1, ih _ ks h hk]
      · rw [if_neg h1] at h
        rw [if_neg h1, if_neg h1]
        by_cases h2 : c = '\x7d'
        · rw [if_pos h2] at h
          rw [if_pos h2, if_pos h2, ih _ ks h hk]
        · rw [if_neg h2] at h
          rw [if_neg h2, if_neg h2, ih _ ks h hk]
    | afterOpen =>
      simp only [templateKeysGo] at h
      simp only [formatMapGo]
      by_cases h1 : c = '\x7b'
      · rw [if_pos h1] at h
        rw [if_pos h1, if_pos h1, ih _ ks h hk]
      · rw [if_neg h1] at h
        rw [if_neg h1, if_neg h1]
        by_cases h2 : c = '\x7d'
        · rw [if_pos h2] at h
          rw [if_pos h2, if_pos h2]
          cases hks : templateKeysGo rest .text with
          | none =>
            rw [hks] at h
            exact absurd h (by simp)
          | some ks' =>
            rw [hks] at h
            simp only [Option.map, Option.some.injEq] at h
            subst h
            have hke : "" ≠ k := fun hq => hk (by rw [← hq]; simp)
            rw [hag "" hke, ih _ ks' hks (fun hq => hk (by simp [hq]))]
        · rw [if_neg h2] at h
          rw [if_neg h2, if_neg h2, ih _ ks h hk]
    | afterClose =>
      simp only [templateKeysGo] at h
      simp only [formatMapGo]
      by_cases h1 : c = '\x7d'
      · rw [if_pos h1] at h
        rw [if_pos h1, if_pos h1, ih _ ks h hk]
      · rw [if_neg h1] at h
        exact absurd h (by simp)
    | field acc =>
      simp only [templateKeysGo] at h
      simp only [formatMapGo]
      by_cases h1 : c = '\x7d'
      · rw [if_pos h1] at h
        rw [if_pos h1, if_pos h1]
        cases hks : templateKeysGo rest .text with
        | none =>
          rw [hks] at h
          exact absurd h (by simp)
        | some ks' =>
          rw [hks] at h
          simp only [Option.map, Option.some.injEq] at h
          subst h
          have hke : String.mk acc.reverse ≠ k := fun hq => hk (by rw [← hq]; simp)
          rw [hag (String.mk acc.reverse) hke,
              ih _ ks' hks (fun hq => hk (by simp [hq]))]
      · rw [if_neg h1] at h
        rw [if_neg h1, if_neg h1]
        exact ih _ ks h hk

theorem append_preamble_agrees {k : String} {c1 c2 : Context} (hag : agreesExcept k c1 c2)
    (text template : String) (ks : List String) (hwf : templateKeys template = some ks)
    (hk : k ∉ ks) : append_preamble text template c1 = append_preamble text template c2 := by
  unfold append_preamble
  rw [formatMapGo_agrees hag template.toList .text ks hwf hk]

theorem render_license_agrees (spec : LicenseSpec) (store : String → Option String)
    {k : String} {c1 c2 : Context} (hag : agreesExcept k c1 c2)
    (hrep : ∀ r ∈ spec.replacements, evaluate_value r.value c1 = evaluate_value r.value c2)
    (hpre : ∀ t, spec.preamble_template = some t → ∃ ks, templateKeys t = some ks ∧ k ∉ ks) :
    render_license store spec c1 = render_license store spec c2 := by
  unfold render_license render_body
  cases hl : load_license_text store spec with
  | error e => rfl
  | ok text =>
    dsimp only
    have hreps : (if spec.replacements.isEmpty then text
        else apply_replacements text spec.replacements c1) =
        (if spec.replacements.isEmpty then text
        else apply_replacements text spec.replacements c2) := by
      by_cases he : spec.replacements.isEmpty
      · rw [if_pos he, if_pos he]
      · rw [if_neg he, if_neg he, apply_replacements_agrees spec.replacements c1 c2 hrep text]
    rw [hreps]
    cases hpt : spec.preamble_template with
    | none => rfl
    | some t =>
      dsimp only
      by_cases ht : t ≠ ""
      · rw [if_pos ht, if_pos ht]
        obtain ⟨ks, hwf, hk⟩ := hpre t hpt
        rw [append_preamble_agrees hag _ t ks hwf hk]
      · rw [if_neg ht, if_neg ht]

/-- C8: an override whose key is not a field key of the spec, is not read
by any of its replacement values or default factories, is not referenced
by its preamble template, and with no `post_process`, has no effect on the
rendered output: the run with the extra `--set k=v` override produces the
same output text as the run without it, for any mode, input stream and
template store. -/
theorem c8_unused_override (spec : LicenseSpec) (store : String → Option String)
    (skip : Bool) (inp : List String) (o : List (String × String)) (k v : String)
    (hpp : spec.post_process = none)
    (hfk : ∀ f ∈ spec.fields, f.key ≠ k)
    (hdf : ∀ f ∈ spec.fields, ∀ df, f.default_factory = some df →
      ∀ c1 c2, agreesExcept k c1 c2 → df c1 = df c2)
    (hrep : ∀ r ∈ spec.replacements, ∀ c1 c2, agreesExcept k c1 c2 →
      evaluate_value r.value c1 = evaluate_value r.value c2)
    (hpre : ∀ t, spec.preamble_template = some t →
      ∃ ks, templateKeys t = some ks ∧ k ∉ ks) :
    ((collect_field_values spec skip (o ++ [(k, v)]) inp).bind
      (fun r => (render_license store spec r.1).toOption)) =
    ((collect_field_values spec skip o inp).bind
      (fun r => (render_license store spec r.1).toOption)) := by
  have haginit : agreesExcept k (overrides_init (o ++ [(k, v)])) (overrides_init o) := by
    unfold overrides_init
    rw [List.foldl_append]
    simp only [List.foldl_cons, List.foldl_nil]
    by_cases ht : ensure_value (some v) ≠ ""
    · rw [if_pos ht]
      exact agreesExcept_insert_left _ _
    · rw [if_neg ht]
      exact agreesExcept_refl k _
  obtain ⟨st1, st2, h1, h2, hag, heq⟩ :=
    collectFields_agrees skip spec.fields _ _ inp [] hfk hdf haginit
  rw [collect_field_values_eq spec skip _ inp hpp,
      collect_field_values_eq spec skip o inp hpp, h1, h2]
  simp only [Option.some_bind]
  rw [render_license_agrees spec store hag (fun r hr => hrep r hr _ _ hag) hpre]

/-- Witness for C8: `--set custom=Value` on a Boost render changes
nothing. -/
theorem c8_witness :
    ((collect_field_values (spec_BSL_1_0 ipAnn) true ([] ++ [("custom", "Value")]) []).bind
      (fun r => (render_license storeBSL (spec_BSL_1_0 ipAnn) r.1).toOption)) =
    ((collect_field_values (spec_BSL_1_0 ipAnn) true [] []).bind
      (fun r => (render_license storeBSL (spec_BSL_1_0 ipAnn) r.1).toOption)) :=
  c8_unused_override (spec_BSL_1_0 ipAnn) storeBSL true [] [] "custom" "Value" rfl
    (by intro f hf
        fin_cases hf <;> decide)
    (by intro f hf df hdfc c1 c2 hag
        fin_cases hf <;> (injection hdfc with he; subst he; rfl))
    (by intro r hr
        simp [spec_BSL_1_0] at hr)
    (by intro t ht
        injection ht with hte
        subst hte
        exact ⟨["year", "copyright_holder"], rfl, by decide⟩)

/-! ### C7: malformed `--set` arguments -/

theorem applySet_error :
    ∀ (pre : List String) (a : String) (post : List String) (msg : String) (o : Context),
      (∀ b ∈ pre, setErrorFor b = none) → setErrorFor a = some msg →
      applySet o (pre ++ a :: post) = .error msg := by
  intro pre
  induction pre with
  | nil =>
    intro a post msg o _ ha
    rw [List.nil_append]
    unfold setErrorFor at ha
    unfold applySet
    cases hsp : splitFirstEq a.toList with
    | none =>
      rw [hsp] at ha
      dsimp only at ha ⊢
      injection ha with h1
      rw [h1]
    | some kv =>
      rw [hsp] at ha
      dsimp only at ha ⊢
      by_cases hk : pyStrip (String.mk kv.1) = ""
      · rw [if_pos hk] at ha ⊢
        injection ha with h1
        rw [h1]
      · rw [if_neg hk] at ha
        exact absurd ha (by simp)
  | cons b pre ih =>
    intro a post msg o hpre ha
    have hb := hpre b (by simp)
    unfold setErrorFor at hb
    rw [List.cons_append]
    unfold applySet
    cases hsp : splitFirstEq b.toList with
    | none =>
      rw [hsp] at hb
      dsimp only at hb
      simp at hb
    | some kv =>
      rw [hsp] at hb
      dsimp only at hb ⊢
      by_cases hk : pyStrip (String.mk kv.1) = ""
      · rw [if_pos hk] at hb
        simp at hb
      · rw [if_neg hk]
        exact ih a post msg _ (fun x hx => hpre x (by simp [hx])) ha

/-- C7: `build_cli_overrides` splits each `--set` argument at the first
`=`; the first argument with no `=` (or with an empty stripped key) makes
it fail with the message naming that token (or stating the empty key),
before any field of the spec is resolved — the run is independent of the
prompt stream, identity sources and template store — and `main` exits with
code 1 producing no output. -/
theorem c7_invalid_set (args : Args) (ip : IdentityProvider) (tty : Bool) (inp : List String)
    (store : String → Option String) (pre : List String) (a : String) (post : List String)
    (msg : String) (hset : args.set = pre ++ a :: post)
    (hpre : ∀ b ∈ pre, setErrorFor b = none) (ha : setErrorFor a = some msg)
    (hlist : args.list = false) :
    build_cli_overrides args = .error msg ∧
    mainModel args ip tty inp store = some (1, none) := by
  have hbuild : build_cli_overrides args = .error msg := by
    unfold build_cli_overrides
    rw [hset]
    exact applySet_error pre a post msg _ hpre ha
  refine ⟨hbuild, ?_⟩
  unfold mainModel
  rw [hlist, if_neg Bool.false_ne_true, hbuild]
  cases args.license with
  | none => rfl
  | some name =>
    dsimp only
    generalize resolve_spec ip name = res
    cases res with
    | error e => rfl
    | ok spec => rfl

/-- Witness for C7: `--set novalue` on an otherwise valid MIT run. -/
theorem c7_witness :
    build_cli_overrides argsBadSet =
      .error "Invalid --set value 'novalue'. Expected KEY=VALUE." ∧
    mainModel argsBadSet ipAnon true [] (fun _ => some "T") = some (1, none) :=
  c7_invalid_set argsBadSet ipAnon true [] (fun _ => some "T") [] "novalue" []
    "Invalid --set value 'novalue'. Expected KEY=VALUE." rfl (by simp) rfl rfl

/-! ### C9: replacements and preamble are independent steps -/

/-- C9: for a spec with a non-empty replacement list and a non-empty
preamble template, `render_license` applies the token replacements to the
loaded template first and then formats and prepends the preamble to the
already-substituted body. -/
theorem c9_replacements_then_preamble (spec : LicenseSpec) (store : String → Option String)
    (context : Context) (t p : String)
    (hr : spec.replacements.isEmpty = false)
    (hp : spec.preamble_template = some p) (hp2 : p ≠ "")
    (ht : store spec.filename = some t) :
    render_license store spec context =
      (append_preamble (apply_replacements t spec.replacements context) p context).map
        finalize_newline := by
  unfold render_license render_body load_license_text
  rw [ht, hr, hp]
  simp [hp2]

/-- Witness for C9: a spec declaring both mechanisms, rendered at a
concrete store and context. -/
theorem c9_witness :
    render_license storeBoth specBoth [("p", "HEAD"), ("value_key", "VAL")] =
      (append_preamble
        (apply_replacements "TOKEN body" specBoth.replacements [("p", "HEAD"), ("value_key", "VAL")])
        "{p}" [("p", "HEAD"), ("value_key", "VAL")]).map finalize_newline :=
  c9_replacements_then_preamble specBoth storeBoth [("p", "HEAD"), ("value_key", "VAL")]
    "TOKEN body" "{p}" rfl rfl (by decide) rfl

end Licenseme
